import Mathlib

/-
Verification development for the Aspire-AI privacy and memory subsystem
(src/ai_career_buddy/app.py).  The Python functions are shallowly embedded:
text is a list of characters, the regex substitutions of `redact_pii` are
executed by a small backtracking engine with Python `re` semantics
(leftmost match, ordered alternation, greedy quantifiers, word boundaries),
restricted to the ASCII character handling the patterns use.
-/

namespace Aspire

/-- Python word character for the purposes of a regex word boundary:
letters `A-Z` and `a-z`, digits `0-9`, and the underscore (ASCII model). -/
def isWordChar (c : Char) : Bool :=
  (65 ≤ c.toNat && c.toNat ≤ 90) || (97 ≤ c.toNat && c.toNat ≤ 122) ||
    (48 ≤ c.toNat && c.toNat ≤ 57) || c.toNat == 95

/-- Whether an optional "previous character" is a word character;
the start of the string counts as a non-word position. -/
def wordy : Option Char → Bool
  | none => false
  | some c => isWordChar c

/-- A regex word boundary between the previous character and the head of
the remaining input. -/
def atBoundary (prev : Option Char) (s : List Char) : Bool :=
  wordy prev != (match s with | [] => false | c :: _ => isWordChar c)

/-- Character classes are finite unions of inclusive character ranges. -/
abbrev CharRanges := List (Char × Char)

/-- Membership of a character in a union of ranges. -/
def inRanges (rs : CharRanges) (c : Char) : Bool :=
  rs.any (fun p => decide (p.1 ≤ c) && decide (c ≤ p.2))

/-- Class membership under an optional IGNORECASE flag (ASCII case folding,
as in the Python patterns being modelled). -/
def clsMatch (icase : Bool) (rs : CharRanges) (c : Char) : Bool :=
  inRanges rs c || (icase && (inRanges rs c.toLower || inRanges rs c.toUpper))

/-- Literal match under an optional IGNORECASE flag. -/
def litMatch (icase : Bool) (p c : Char) : Bool :=
  p == c || (icase && p.toLower == c.toLower)

/-- Abstract syntax of the regular expressions used by `redact_pii`. -/
inductive RE where
  | eps : RE
  | fail : RE
  | lit (c : Char) : RE
  | cls (rs : CharRanges) : RE
  | seq (a b : RE) : RE
  | alt (a b : RE) : RE
  | opt (a : RE) : RE
  | star (a : RE) : RE
  | wb : RE
deriving Repr

/-- Structural depth of a regex, used to compute a sufficient fuel bound. -/
def reDepth : RE → Nat
  | .eps | .fail | .lit _ | .cls _ | .wb => 1
  | .seq a b | .alt a b => 1 + max (reDepth a) (reDepth b)
  | .opt a | .star a => 1 + reDepth a

/-- Backtracking matcher.  `runRE icase fuel re prev s` returns, in Python
backtracking priority order (ordered alternation, greedy `?` and `*`), the
list of `(last consumed character, remaining suffix)` pairs for every way
`re` can match a prefix of `s`; `prev` is the character just before `s` in
the subject string, used for word boundaries.  A `star` never repeats an
empty body match (matching Python, whose quantifiers cannot loop on an
empty match).  `fuel` bounds the recursion depth; one unit is spent per
node, each `star` iteration consumes at least one input character, so
`(s.length + 2) * (reDepth re + 2)` units are always sufficient. -/
def runRE (icase : Bool) : Nat → RE → Option Char → List Char → List (Option Char × List Char)
  | 0, _, _, _ => []
  | _ + 1, .eps, prev, s => [(prev, s)]
  | _ + 1, .fail, _, _ => []
  | _ + 1, .lit _, _, [] => []
  | _ + 1, .lit p, _, c :: rest => if litMatch icase p c then [(some c, rest)] else []
  | _ + 1, .cls _, _, [] => []
  | _ + 1, .cls rs, _, c :: rest => if clsMatch icase rs c then [(some c, rest)] else []
  | _ + 1, .wb, prev, s => if atBoundary prev s then [(prev, s)] else []
  | fuel + 1, .seq a b, prev, s =>
      (runRE icase fuel a prev s).flatMap (fun pr => runRE icase fuel b pr.1 pr.2)
  | fuel + 1, .alt a b, prev, s => runRE icase fuel a prev s ++ runRE icase fuel b prev s
  | fuel + 1, .opt a, prev, s => runRE icase fuel a prev s ++ [(prev, s)]
  | fuel + 1, .star a, prev, s =>
      (((runRE icase fuel a prev s).filter (fun pr => pr.2.length < s.length)).flatMap
        (fun pr => runRE icase fuel (.star a) pr.1 pr.2)) ++ [(prev, s)]

/-- Length of the leftmost match of `re` at the current position, following
Python's backtracking order (the first success is the match), or `none`. -/
def firstMatchLen (icase : Bool) (re : RE) (prev : Option Char) (s : List Char) : Option Nat :=
  match (runRE icase ((s.length + 2) * (reDepth re + 2)) re prev s).head? with
  | none => none
  | some pr => some (s.length - pr.2.length)

/-- One step of `re.sub`: scan left to right, replace each leftmost
non-overlapping match using `repl` applied to the matched text, and
continue after the match.  The fuel is the number of scan positions left;
every step consumes at least one character, so `s.length + 1` suffices. -/
def reSubAux (icase : Bool) (re : RE) (repl : List Char → List Char) :
    Nat → Option Char → List Char → List Char
  | 0, _, s => s
  | _ + 1, _, [] => []
  | fuel + 1, prev, c :: rest =>
    match firstMatchLen icase re prev (c :: rest) with
    | some k =>
      if 0 < k then
        repl ((c :: rest).take k) ++
          reSubAux icase re repl fuel ((c :: rest).take k).getLast? ((c :: rest).drop k)
      else
        repl [] ++ (c :: reSubAux icase re repl fuel (some c) rest)
    | none => c :: reSubAux icase re repl fuel (some c) rest

/-- Python's `re.sub(pattern, repl, s)` on character lists. -/
def reSub (icase : Bool) (re : RE) (repl : List Char → List Char) (s : List Char) : List Char :=
  reSubAux icase re repl (s.length + 1) none s

/-- Sequence of regexes, in order. -/
def rseq (l : List RE) : RE := l.foldr RE.seq RE.eps

/-- Ordered alternation of a list of regexes (Python tries them left to right). -/
def ralts : List RE → RE
  | [] => RE.fail
  | [r] => r
  | r :: rs => RE.alt r (ralts rs)

/-- String literal regex. -/
def rstr (w : String) : RE := rseq (w.data.map RE.lit)

/-- `r+` (greedy). -/
def rplus (r : RE) : RE := .seq r (.star r)

/-- `r{n}`. -/
def rrep (r : RE) : Nat → RE
  | 0 => .eps
  | n + 1 => .seq r (rrep r n)

/-- Greedy chain of up to `n` further copies of `r`, longest first. -/
def roptchain (r : RE) : Nat → RE
  | 0 => .eps
  | n + 1 => .opt (.seq r (roptchain r n))

/-- `r{m,n}` (greedy). -/
def rbetween (r : RE) (m n : Nat) : RE := .seq (rrep r m) (roptchain r (n - m))

/-- `r{m,}` (greedy). -/
def ratleast (r : RE) (m : Nat) : RE := .seq (rrep r m) (.star r)

/-- `\d`. -/
def digitCls : CharRanges := [('0', '9')]

/-- `\s` (ASCII): space, tab, newline, carriage return, vertical tab, form feed. -/
def wsRanges : CharRanges :=
  [(' ', ' '), ('\t', '\t'), ('\n', '\n'), ('\r', '\r'), ('\x0b', '\x0b'), ('\x0c', '\x0c')]

/-- `\s` as a regex atom. -/
def wsC : RE := .cls wsRanges

/-- `[\s.-]`. -/
def wsDotDash : RE := .cls (wsRanges ++ [('.', '.'), ('-', '-')])

/-- `[\s,]`. -/
def wsComma : RE := .cls (wsRanges ++ [(',', ',')])

/-- `[a-z]`. -/
def lowerCls : CharRanges := [('a', 'z')]

/-- `[A-Z]`. -/
def upperCls : CharRanges := [('A', 'Z')]

/-- `[A-Za-z0-9._%+-]` (email local part). -/
def emailLocalCls : CharRanges :=
  [('A', 'Z'), ('a', 'z'), ('0', '9'), ('.', '.'), ('_', '_'), ('%', '%'), ('+', '+'), ('-', '-')]

/-- `[A-Za-z0-9.-]` (email domain). -/
def emailDomainCls : CharRanges :=
  [('A', 'Z'), ('a', 'z'), ('0', '9'), ('.', '.'), ('-', '-')]

/-- `[A-Z|a-z]` (email top-level domain; the source class literally includes a pipe). -/
def emailTldCls : CharRanges := [('A', 'Z'), ('|', '|'), ('a', 'z')]

/-- `[A-Z][a-z]+`, the capitalized-word token of the name patterns. -/
def capWordRE : RE := .seq (.cls upperCls) (rplus (.cls lowerCls))

/-- Phone pattern 1: Indian mobile. -/
def phonePat1 : RE :=
  rseq [.wb, .opt (rseq [rstr "+91", .opt wsDotDash]),
    .cls [('6', '9')], rrep (.cls digitCls) 9, .wb]

/-- Phone pattern 2: Indian landline. -/
def phonePat2 : RE :=
  rseq [.wb, .opt (rseq [rstr "+91", .opt wsDotDash]),
    .lit '0', rbetween (.cls digitCls) 2 4, .opt wsDotDash, rbetween (.cls digitCls) 6 8, .wb]

/-- Phone pattern 3: international. -/
def phonePat3 : RE :=
  rseq [.wb, .opt (rseq [.lit '+', rbetween (.cls digitCls) 1 3, .opt wsDotDash]),
    .opt (.lit '('), rrep (.cls digitCls) 3, .opt (.lit ')'), .opt wsDotDash,
    rrep (.cls digitCls) 3, .opt wsDotDash, rrep (.cls digitCls) 4, .wb]

/-- Email address pattern. -/
def emailPat : RE :=
  rseq [.wb, rplus (.cls emailLocalCls), .lit '@', rplus (.cls emailDomainCls),
    .lit '.', ratleast (.cls emailTldCls) 2, .wb]

/-- Address pattern 1: 6-digit PIN codes. -/
def addrPat1 : RE := rseq [.wb, rrep (.cls digitCls) 6, .wb]

/-- Address pattern 2: `<keyword> (no.)? <number>`. -/
def addrPat2 : RE :=
  rseq [.wb,
    ralts ((["house", "flat", "apartment", "bldg", "building", "block", "street",
      "road", "lane", "colony", "sector", "phase"]).map rstr),
    rplus wsC, .opt (rseq [rstr "no", .opt (.lit '.'), .star wsC]),
    rplus (.cls digitCls), .wb]

/-- Address pattern 3: `<number> (main)? <road type>`. -/
def addrPat3 : RE :=
  rseq [.wb, rplus (.cls digitCls), .opt (.cls lowerCls), rplus wsComma,
    .opt (rseq [rstr "main", rplus wsC]),
    ralts ((["road", "street", "lane", "avenue", "marg", "nagar", "colony",
      "sector", "phase", "block"]).map rstr),
    .wb]

/-- The city alternation of school pattern 1, in source order. -/
def schoolCities : List String :=
  ["delhi", "mumbai", "bangalore", "chennai", "kolkata", "hyderabad", "pune",
   "ahmedabad", "jaipur", "lucknow", "kanpur", "nagpur", "indore", "bhopal",
   "visakhapatnam", "pimpri", "patna", "vadodara", "ludhiana", "rajkot",
   "kalyan", "vasai", "varanasi", "srinagar", "aurangabad", "dhanbad",
   "amritsar", "navi", "allahabad", "ranchi", "haora", "coimbatore",
   "jabalpur", "gwalior", "vijayawada", "jodhpur", "madurai", "raipur",
   "kota", "guwahati", "chandigarh", "solapur", "hubli", "tiruchirappalli",
   "bareilly", "mysore", "tiruppur", "gurgaon", "aligarh", "jalandhar",
   "bhubaneswar", "salem", "warangal", "guntur", "bhiwandi", "saharanpur",
   "gorakhpur", "bikaner", "amravati", "noida", "jamshedpur", "bhilai",
   "cuttack", "firozabad", "kochi", "bhavnagar", "dehradun", "durgapur",
   "asansol", "rourkela", "nanded", "kolhapur", "ajmer", "akola", "gulbarga",
   "jamnagar", "ujjain", "loni", "siliguri", "jhansi", "ulhasnagar", "jammu",
   "sangli", "mangalore", "erode", "belgaum", "ambattur", "tirunelveli",
   "malegaon", "gaya", "jalgaon", "udaipur", "maheshtala"]

/-- School pattern 1: city name, optional qualifier, "school". -/
def schoolPat1 : RE :=
  rseq [.wb, ralts (schoolCities.map rstr), rplus wsC,
    .opt (ralts [rstr "public", rstr "private", rstr "international",
      rstr "convent", rstr "model",
      rseq [rstr "higher", rplus wsC, rstr "secondary"],
      rseq [rstr "senior", rplus wsC, rstr "secondary"],
      rstr "primary", rstr "elementary", rstr "high", rstr "middle",
      rstr "secondary"]),
    .star wsC, rstr "school", .wb]

/-- School pattern 2: `st./saint <name>('s) school|college|convent`. -/
def schoolPat2 : RE :=
  rseq [.wb, ralts [rseq [rstr "st", .opt (.lit '.')], rstr "saint"],
    rplus wsC, rplus (.cls lowerCls), .opt (rstr "'s"), rplus wsC,
    ralts [rstr "school", rstr "college", rstr "convent"], .wb]

/-- School pattern 3: named school systems. -/
def schoolPat3 : RE :=
  rseq [.wb,
    ralts [rstr "dav", rseq [rstr "kendriya", rplus wsC, rstr "vidyalaya"],
      rstr "kv", rseq [rstr "jawahar", rplus wsC, rstr "navodaya"],
      rstr "jnv", rstr "sarvodaya", rstr "government", rstr "govt"],
    rplus wsC, ralts [rstr "school", rstr "vidyalaya"], .wb]

/-- School pattern 4: `<word> <qualifier> school`. -/
def schoolPat4 : RE :=
  rseq [.wb, rplus (.cls lowerCls), rplus wsC,
    ralts [rstr "public", rstr "international", rstr "convent", rstr "model",
      rstr "english",
      rseq [rstr "higher", rplus wsC, rstr "secondary"],
      rseq [rstr "senior", rplus wsC, rstr "secondary"]],
    rplus wsC, rstr "school", .wb]

/-- Name pattern 1: `my name is <Cap> (<Cap>)*`. -/
def namePat1 : RE :=
  rseq [.wb, rstr "my", rplus wsC, rstr "name", rplus wsC, rstr "is", rplus wsC,
    capWordRE, .star (rseq [rplus wsC, capWordRE]), .wb]

/-- Name pattern 2: `i am <Cap> (<Cap>)*`. -/
def namePat2 : RE :=
  rseq [.wb, rstr "i", rplus wsC, rstr "am", rplus wsC,
    capWordRE, .star (rseq [rplus wsC, capWordRE]), .wb]

/-- Name pattern 3: `call me <Cap>`. -/
def namePat3 : RE :=
  rseq [.wb, rstr "call", rplus wsC, rstr "me", rplus wsC, capWordRE, .wb]

/-- Age pattern 1: `i am N years old`. -/
def agePat1 : RE :=
  rseq [.wb, rstr "i", rplus wsC, rstr "am", rplus wsC, rplus (.cls digitCls),
    rplus wsC, rstr "year", .opt (.lit 's'), rplus wsC, rstr "old", .wb]

/-- Age pattern 2: `i am in Nth class/grade/standard`. -/
def agePat2 : RE :=
  rseq [.wb, rstr "i", rplus wsC, rstr "am", rplus wsC, rstr "in", rplus wsC,
    rplus (.cls digitCls),
    .opt (ralts [rstr "th", rstr "st", rstr "nd", rstr "rd"]), rplus wsC,
    ralts [rstr "class", rstr "grade", rstr "standard"], .wb]

/-- Age pattern 3: `class N`. -/
def agePat3 : RE := rseq [.wb, rstr "class", rplus wsC, rplus (.cls digitCls), .wb]

/-- Age pattern 4: `grade N`. -/
def agePat4 : RE := rseq [.wb, rstr "grade", rplus wsC, rplus (.cls digitCls), .wb]

/-- Location pattern 1: `i live in <Cap> (<Cap>)*`. -/
def locPat1 : RE :=
  rseq [.wb, rstr "i", rplus wsC, rstr "live", rplus wsC, rstr "in", rplus wsC,
    capWordRE, .star (rseq [rplus wsC, capWordRE]), .wb]

/-- Location pattern 2: `i am from <Cap> (<Cap>)*`. -/
def locPat2 : RE :=
  rseq [.wb, rstr "i", rplus wsC, rstr "am", rplus wsC, rstr "from", rplus wsC,
    capWordRE, .star (rseq [rplus wsC, capWordRE]), .wb]

/-- Location pattern 3: `my city/town/village/area is <Cap>`. -/
def locPat3 : RE :=
  rseq [.wb, rstr "my", rplus wsC,
    ralts [rstr "city", rstr "town", rstr "village", rstr "area"],
    rplus wsC, rstr "is", rplus wsC, capWordRE, .wb]

/-- Replacement used inside the matched span of a name pattern: every
`[A-Z][a-z]+` token of the match becomes `[NAME_REDACTED]` (the lambda in
the source). -/
def nameSpanRepl (m : List Char) : List Char :=
  reSub false capWordRE (fun _ => "[NAME_REDACTED]".data) m

/-- The full `redact_pii` pipeline on a non-empty string, pass by pass in
source order.  Phone, address, school, age and location passes are
IGNORECASE; the email and name passes are case-sensitive. -/
def redact_pii_chars (s : List Char) : List Char :=
  let t := reSub true phonePat1 (fun _ => "[PHONE_REDACTED]".data) s
  let t := reSub true phonePat2 (fun _ => "[PHONE_REDACTED]".data) t
  let t := reSub true phonePat3 (fun _ => "[PHONE_REDACTED]".data) t
  let t := reSub false emailPat (fun _ => "[EMAIL_REDACTED]".data) t
  let t := reSub true addrPat1 (fun _ => "[ADDRESS_REDACTED]".data) t
  let t := reSub true addrPat2 (fun _ => "[ADDRESS_REDACTED]".data) t
  let t := reSub true addrPat3 (fun _ => "[ADDRESS_REDACTED]".data) t
  let t := reSub true schoolPat1 (fun _ => "[SCHOOL_REDACTED]".data) t
  let t := reSub true schoolPat2 (fun _ => "[SCHOOL_REDACTED]".data) t
  let t := reSub true schoolPat3 (fun _ => "[SCHOOL_REDACTED]".data) t
  let t := reSub true schoolPat4 (fun _ => "[SCHOOL_REDACTED]".data) t
  let t := reSub false namePat1 nameSpanRepl t
  let t := reSub false namePat2 nameSpanRepl t
  let t := reSub false namePat3 nameSpanRepl t
  let t := reSub true agePat1 (fun _ => "[AGE_REDACTED]".data) t
  let t := reSub true agePat2 (fun _ => "[AGE_REDACTED]".data) t
  let t := reSub true agePat3 (fun _ => "[AGE_REDACTED]".data) t
  let t := reSub true agePat4 (fun _ => "[AGE_REDACTED]".data) t
  let t := reSub true locPat1 (fun _ => "[LOCATION_REDACTED]".data) t
  let t := reSub true locPat2 (fun _ => "[LOCATION_REDACTED]".data) t
  let t := reSub true locPat3 (fun _ => "[LOCATION_REDACTED]".data) t
  t

/-- `redact_pii`: absent input and the empty string are returned unchanged
(the `if not text` guard); otherwise the pattern passes run. -/
def redact_pii : Option String → Option String
  | none => none
  | some s => if s = "" then some s else some (String.mk (redact_pii_chars s.data))

/-- Python whitespace test used by `str.strip` (ASCII model). -/
def pyIsSpace (c : Char) : Bool := inRanges wsRanges c

/-- `str.lstrip()`. -/
def pyLstrip (l : List Char) : List Char := l.dropWhile pyIsSpace

/-- `str.rstrip()`. -/
def pyRstrip (l : List Char) : List Char := (l.reverse.dropWhile pyIsSpace).reverse

/-- `str.strip()`. -/
def pyStrip (l : List Char) : List Char := pyRstrip (pyLstrip l)

/-- `str.lower()` (ASCII model). -/
def pyLower (s : String) : String := String.mk (s.data.map Char.toLower)

/-- Python list/str membership `needle == hay[:len(needle)]` helper:
whether `needle` is an initial segment of `hay`. -/
def leadsWith : List Char → List Char → Bool
  | [], _ => true
  | _ :: _, [] => false
  | a :: as, b :: bs => a == b && leadsWith as bs

/-- Python substring containment `needle in hay`. -/
def pyContains (needle : List Char) : List Char → Bool
  | [] => leadsWith needle []
  | c :: rest => leadsWith needle (c :: rest) || pyContains needle rest

/-- `MAX_MEMORY_ENTRIES`. -/
def MAX_MEMORY_ENTRIES : Nat := 10

/-- `MAX_MEMORY_TEXT_LENGTH`. -/
def MAX_MEMORY_TEXT_LENGTH : Nat := 280

/-- `MAX_INTEREST_TAGS`. -/
def MAX_INTEREST_TAGS : Nat := 6

/-- `sanitize_memory_text`: falsy input becomes `""`; otherwise redact,
strip surrounding whitespace, and truncate over-long text to its first 280
characters, right-stripped, plus `"..."`. -/
def sanitize_memory_text : Option String → String
  | none => ""
  | some s =>
    if s = "" then ""
    else
      let cleaned := pyStrip (redact_pii_chars s.data)
      if MAX_MEMORY_TEXT_LENGTH < cleaned.length then
        String.mk (pyRstrip (cleaned.take MAX_MEMORY_TEXT_LENGTH) ++ "...".data)
      else String.mk cleaned

/-- `POSITIVE_KEYWORDS` (a Python set; only membership is ever used). -/
def POSITIVE_KEYWORDS : List String :=
  ["awesome", "brilliant", "cool", "enjoy", "excited", "fun", "glad", "good",
   "great", "happy", "love", "proud"]

/-- `NEGATIVE_KEYWORDS`. -/
def NEGATIVE_KEYWORDS : List String :=
  ["angry", "bored", "confused", "disappointed", "frustrated", "nervous",
   "sad", "scared", "tired", "upset", "worried"]

/-- `INTEREST_KEYWORDS`, in dict insertion order. -/
def INTEREST_KEYWORDS : List (String × List String) :=
  [("science", ["science", "experiment", "space", "rocket", "robot", "physics", "chemistry", "biology"]),
   ("technology", ["technology", "coding", "computer", "program", "app", "ai", "game", "robotics"]),
   ("math", ["math", "algebra", "geometry", "numbers", "equation", "formula"]),
   ("art", ["art", "drawing", "painting", "music", "dance", "creative", "story"]),
   ("sports", ["sport", "sports", "football", "cricket", "basketball", "athletics", "running"]),
   ("nature", ["nature", "environment", "planet", "trees", "forest", "wildlife"]),
   ("animals", ["animal", "animals", "pet", "pets", "zoo", "vet", "veterinarian"]),
   ("helping", ["doctor", "nurse", "heal", "care", "help people"])]

/-- `classify_mood_hint`: lower-case `(text or "")`, negative keywords
dominate, then positive, else neutral. -/
def classify_mood_hint (text : Option String) : String :=
  let lowered := (pyLower (text.getD "")).data
  if NEGATIVE_KEYWORDS.any (fun kw => pyContains kw.data lowered) then "needs_support"
  else if POSITIVE_KEYWORDS.any (fun kw => pyContains kw.data lowered) then "upbeat"
  else "neutral"

/-- `extract_interest_tags`: every tag whose keyword list has a substring
hit in the lower-cased text, in declaration order. -/
def extract_interest_tags (text : Option String) : List String :=
  let lowered := (pyLower (text.getD "")).data
  (INTEREST_KEYWORDS.filter (fun p => p.2.any (fun kw => pyContains kw.data lowered))).map (fun p => p.1)

/-- The dedup loop of `merge_with_limit`: keep an item when it is truthy
(non-empty) and not seen before; `seen` accumulates kept items. -/
def merge_dedup (seen : List String) : List String → List String
  | [] => []
  | x :: xs => if x ≠ "" ∧ x ∉ seen then x :: merge_dedup (x :: seen) xs else merge_dedup seen xs

/-- Python `l[-n:]` for `n > 0`. -/
def lastN (n : Nat) (l : List α) : List α := l.drop (l.length - n)

/-- `merge_with_limit`: order-preserving truthy dedup of `existing ++ new`,
then keep the last `limit` entries (the `if limit:` guard skips truncation
for a falsy limit). -/
def merge_with_limit (existing new_items : List String) (limit : Nat) : List String :=
  let merged := merge_dedup [] (existing ++ new_items)
  if limit ≠ 0 then lastN limit merged else merged

/-- One record of the RecentContext document. -/
structure MemoryEntry where
  timestamp : String
  user : String
  agent : String
  mood_hint : String
  interest_tags : List String
deriving DecidableEq, Repr

/-- The Summary document.  A missing document or missing keys behave as the
zero values, matching the `summary.get(key, default)` reads. -/
structure Summary where
  last_updated : String
  conversation_count : Int
  recent_moods : List String
  interest_tags : List String
  recent_highlights : List String
deriving DecidableEq, Repr

/-- The zero-value Summary (missing/empty document). -/
def emptySummary : Summary := ⟨"", 0, [], [], []⟩

/-- The first half of the `update_memory` body: read RecentContext, append
the new entry, trim to the last 10. -/
def new_context (entry_ts : String) (user_input ai_response : Option String)
    (recentDoc : List MemoryEntry) : List MemoryEntry :=
  let sanitized_user := sanitize_memory_text user_input
  let sanitized_agent := sanitize_memory_text ai_response
  let mood_hint := classify_mood_hint (some sanitized_user)
  let interest_tags := extract_interest_tags (some sanitized_user)
  let recent_context := recentDoc ++
    [{ timestamp := entry_ts, user := sanitized_user, agent := sanitized_agent,
       mood_hint := mood_hint, interest_tags := interest_tags }]
  if MAX_MEMORY_ENTRIES < recent_context.length then lastN MAX_MEMORY_ENTRIES recent_context
  else recent_context

/-- The second half of the `update_memory` body: read Summary and merge in
the new exchange, using the already-updated RecentContext for highlights. -/
def new_summary (last_updated : String) (user_input : Option String)
    (recent_context : List MemoryEntry) (summaryDoc : Summary) : Summary :=
  let sanitized_user := sanitize_memory_text user_input
  let mood_hint := classify_mood_hint (some sanitized_user)
  let interest_tags := extract_interest_tags (some sanitized_user)
  { last_updated := last_updated,
    conversation_count := summaryDoc.conversation_count + 1,
    recent_moods := lastN MAX_MEMORY_ENTRIES (summaryDoc.recent_moods ++ [mood_hint]),
    interest_tags := merge_with_limit summaryDoc.interest_tags interest_tags MAX_INTEREST_TAGS,
    recent_highlights := lastN 3 ((recent_context.filter (fun e => e.user ≠ "")).map (fun e => e.user)) }

/-- The in-memory merge of `update_memory` (the body under the lock),
with the two `datetime.now()` readings passed in as arbitrary strings.
Returns the new RecentContext and Summary documents, in the order they are
persisted. -/
def update_memory (entry_ts last_updated : String) (user_input ai_response : Option String)
    (recentDoc : List MemoryEntry) (summaryDoc : Summary) : List MemoryEntry × Summary :=
  let recent_context := new_context entry_ts user_input ai_response recentDoc
  (recent_context, new_summary last_updated user_input recent_context summaryDoc)

/-- The pair of persisted documents guarded by `memory_lock`. -/
structure MemoryStore where
  recentDoc : List MemoryEntry
  summaryDoc : Summary
deriving DecidableEq, Repr

/-- `update_memory` with I/O outcomes for its two writes.  The source
persists RecentContext (line 729) before it computes and persists Summary
(line 744); a failing write raises, leaving that document with its prior
content and skipping the rest of the body.  The resulting persisted pair:
both writes succeed → both documents updated; the RecentContext write
fails → neither; only the Summary write fails → RecentContext holds the
new entry while Summary is unchanged. -/
def record_exchange_io (ctxWriteOk sumWriteOk : Bool) (entry_ts last_updated : String)
    (user_input ai_response : Option String) (st : MemoryStore) : MemoryStore :=
  let docs := update_memory entry_ts last_updated user_input ai_response st.recentDoc st.summaryDoc
  if ctxWriteOk then
    if sumWriteOk then ⟨docs.1, docs.2⟩ else ⟨docs.1, st.summaryDoc⟩
  else ⟨st.recentDoc, st.summaryDoc⟩

/-
The apology cap of `call_openrouter_api` (lines 657-670): count the
matches of the word pattern (five letters, case-insensitive, word
boundaries on both sides), and when more than one occurs, split on the
captured word and keep only the first captured occurrence.
-/

/-- The designated apology token, lower case. -/
def apologyWord : List Char := ['s', 'o', 'r', 'r', 'y']

/-- Whether the boundary-delimited, case-insensitive apology word matches
at the start of `u`, with `p` the character just before `u`.  The first
letter of the word is a word character, so the left boundary holds exactly
when `p` is absent or a non-word character; the right boundary holds when
the character after the five-letter match is absent or non-word. -/
def apologyAt (p : Option Char) (u : List Char) : Bool :=
  (!wordy p) && ((u.take 5).map Char.toLower == apologyWord) &&
    (match (u.drop 5).head? with
     | none => true
     | some d => !isWordChar d)

/-- `re.split` on the captured apology word: returns the text before the
first match and, for each match, the matched word together with the text
following it (up to the next match).  Fuel counts remaining scan steps;
each step consumes at least one character, so `s.length + 1` is exact. -/
def apologySplitF : Nat → Option Char → List Char → List Char × List (List Char × List Char)
  | 0, _, s => (s, [])
  | _ + 1, _, [] => ([], [])
  | fuel + 1, p, c :: rest =>
    if apologyAt p (c :: rest) then
      let w := (c :: rest).take 5
      let q := apologySplitF fuel w.getLast? ((c :: rest).drop 5)
      ([], (w, q.1) :: q.2)
    else
      let q := apologySplitF fuel (some c) rest
      (c :: q.1, q.2)

/-- The split of a whole string. -/
def apologySplit (s : List Char) : List Char × List (List Char × List Char) :=
  apologySplitF (s.length + 1) none s

/-- The number of apology-word matches (`re.findall` count). -/
def apologyCount (s : List Char) : Nat := (apologySplit s).2.length

/-- The interleaved parts list that `re.split` with one capture group
returns: text, captured word, text, captured word, ... -/
def apologyParts (s : List Char) : List (List Char) :=
  (apologySplit s).1 :: (apologySplit s).2.flatMap (fun q => [q.1, q.2])

/-- The filtering loop over the split parts: a part equal (lower-cased) to
the apology word is kept only the first time, every other part is kept. -/
def capLoop : Bool → List (List Char) → List (List Char)
  | _, [] => []
  | seenTok, p :: ps =>
    if p.map Char.toLower == apologyWord then
      if seenTok then capLoop true ps else p :: capLoop true ps
    else p :: capLoop seenTok ps

/-- The apology cap: when the word occurs more than once, re-join the
split parts keeping only the first captured occurrence. -/
def cap_apology (content : List Char) : List Char :=
  if 1 < apologyCount content then (capLoop false (apologyParts content)).flatten
  else content

/-- Modelled from the spec: the claimed effect of the cap — the word
literal of occurrences 2..n is removed while all surrounding text is
preserved. -/
def removeLaterApologies (s : List Char) : List Char :=
  match apologySplit s with
  | (_, []) => s
  | (t0, (w1, t1) :: ps) => t0 ++ w1 ++ t1 ++ (ps.map (fun q => q.2)).flatten

/-- The previous character seen by the scanner at position `i` of `s`,
where `p` precedes `s`. -/
def prevAt (p : Option Char) (s : List Char) : Nat → Option Char
  | 0 => p
  | i + 1 => s[i]?

/-- The character preceding the position just after `u`, where `p`
precedes `u`. -/
def prevEnd (p : Option Char) (u : List Char) : Option Char :=
  prevAt p u u.length

/-
Concurrency model for `record_exchange` (§5): each thread runs the
`update_memory` body; `acquire` and `release` bracket the four I/O
accesses (read/write RecentContext, read/write Summary), which act on the
shared store one at a time, with pure computation in between held in the
thread's local state.
-/

/-- Program counter and locals of one thread running `update_memory`. -/
inductive TState where
  | s0 : TState
  | s1 : TState
  | s2 (ctx : List MemoryEntry) : TState
  | s3 (ctx : List MemoryEntry) : TState
  | s4 (ctx : List MemoryEntry) (m : Summary) : TState
  | s5 : TState
  | done : TState
deriving DecidableEq, Repr

/-- Whether a thread is inside the locked section. -/
def TState.inBody : TState → Bool
  | .s0 | .done => false
  | _ => true

/-- Global state: the persisted documents, the lock, and every thread. -/
structure Sys (n : Nat) where
  store : MemoryStore
  lockHolder : Option (Fin n)
  th : Fin n → TState

/-- One atomic step of thread `i`.  `ts`/`lu` give each thread's two
`datetime.now()` readings, `u`/`a` its exchange texts.  Acquiring requires
the lock to be free; the balance of the body runs only from program
counters reachable while holding it. -/
inductive Step (ts lu : Fin n → String) (u a : Fin n → Option String) (i : Fin n) :
    Sys n → Sys n → Prop where
  | acquire (st : MemoryStore) (th : Fin n → TState) (h : th i = .s0) :
      Step ts lu u a i ⟨st, none, th⟩ ⟨st, some i, Function.update th i .s1⟩
  | readCtx (st : MemoryStore) (L : Option (Fin n)) (th : Fin n → TState) (h : th i = .s1) :
      Step ts lu u a i ⟨st, L, th⟩
        ⟨st, L, Function.update th i (.s2 (new_context (ts i) (u i) (a i) st.recentDoc))⟩
  | writeCtx (st : MemoryStore) (L : Option (Fin n)) (th : Fin n → TState)
      (ctx : List MemoryEntry) (h : th i = .s2 ctx) :
      Step ts lu u a i ⟨st, L, th⟩ ⟨⟨ctx, st.summaryDoc⟩, L, Function.update th i (.s3 ctx)⟩
  | readSum (st : MemoryStore) (L : Option (Fin n)) (th : Fin n → TState)
      (ctx : List MemoryEntry) (h : th i = .s3 ctx) :
      Step ts lu u a i ⟨st, L, th⟩
        ⟨st, L, Function.update th i (.s4 ctx (new_summary (lu i) (u i) ctx st.summaryDoc))⟩
  | writeSum (st : MemoryStore) (L : Option (Fin n)) (th : Fin n → TState)
      (ctx : List MemoryEntry) (m : Summary) (h : th i = .s4 ctx m) :
      Step ts lu u a i ⟨st, L, th⟩ ⟨⟨st.recentDoc, m⟩, L, Function.update th i .s5⟩
  | release (st : MemoryStore) (th : Fin n → TState) (h : th i = .s5) :
      Step ts lu u a i ⟨st, some i, th⟩ ⟨st, none, Function.update th i .done⟩

/-- Any thread takes a step. -/
def SysStep (ts lu : Fin n → String) (u a : Fin n → Option String) (x y : Sys n) : Prop :=
  ∃ i, Step ts lu u a i x y

/-- The initial state: empty store, free lock, all threads at the start. -/
def Sys.init (n : Nat) : Sys n := ⟨⟨[], emptySummary⟩, none, fun _ => .s0⟩

/-- Reachability by interleaved steps. -/
def Reaches (ts lu : Fin n → String) (u a : Fin n → Option String) (x y : Sys n) : Prop :=
  Relation.ReflTransGen (SysStep ts lu u a) x y

/-- Whether a thread has already performed its Summary write. -/
def TState.wrote : TState → Bool
  | .s5 | .done => true
  | _ => false

/-- The number of threads that have performed their Summary write. -/
def writtenCount {n : Nat} (th : Fin n → TState) : Nat :=
  (Finset.univ.filter (fun i => (th i).wrote = true)).card

/-- The mutual-exclusion invariant: a thread inside the locked body holds
the lock; the persisted conversation count equals the number of threads
whose Summary write has happened; and a thread poised to write holds a
summary whose count is one more than the persisted one. -/
def Inv {n : Nat} (sy : Sys n) : Prop :=
  (∀ i, (sy.th i).inBody = true → sy.lockHolder = some i) ∧
  sy.store.summaryDoc.conversation_count = (writtenCount sy.th : Int) ∧
  (∀ i ctx m, sy.th i = .s4 ctx m →
    m.conversation_count = sy.store.summaryDoc.conversation_count + 1)

/-
Concrete objects for a single-thread run of the concurrency model.
-/

/-- The single thread index. -/
def c3i : Fin 1 := ⟨0, Nat.zero_lt_one⟩
/-- The entry timestamp reading of the thread. -/
def c3ts : Fin 1 → String := fun _ => "2025-01-01T00:00:00"
/-- The last-updated timestamp reading of the thread. -/
def c3lu : Fin 1 → String := fun _ => "2025-01-01T00:00:01"
/-- The user text of the exchange. -/
def c3u : Fin 1 → Option String := fun _ => some "hi"
/-- The agent text of the exchange. -/
def c3a : Fin 1 → Option String := fun _ => some "ok"
/-- The RecentContext document the thread writes. -/
def c3ctx : List MemoryEntry := new_context (c3ts c3i) (c3u c3i) (c3a c3i) []
/-- The Summary document the thread writes. -/
def c3m : Summary := new_summary (c3lu c3i) (c3u c3i) c3ctx emptySummary
/-- Thread maps along the six-step run. -/
def c3th0 : Fin 1 → TState := fun _ => .s0
def c3th1 : Fin 1 → TState := Function.update c3th0 c3i .s1
def c3th2 : Fin 1 → TState := Function.update c3th1 c3i (.s2 c3ctx)
def c3th3 : Fin 1 → TState := Function.update c3th2 c3i (.s3 c3ctx)
def c3th4 : Fin 1 → TState := Function.update c3th3 c3i (.s4 c3ctx c3m)
def c3th5 : Fin 1 → TState := Function.update c3th4 c3i .s5
def c3th6 : Fin 1 → TState := Function.update c3th5 c3i .done
/-- The terminal state of the single-thread run. -/
def c3final : Sys 1 := ⟨⟨c3ctx, c3m⟩, none, c3th6⟩

/-
Spec-side and concrete auxiliary definitions used by the claims.
-/

/-- Modelled from the spec: "deduplicate keeping the first occurrence"
(order-preserving, no truthiness filter). -/
def dedup_first (seen : List String) : List String → List String
  | [] => []
  | x :: xs => if x ∈ seen then dedup_first seen xs else x :: dedup_first (x :: seen) xs

/-- A 400-character string: 275 letters, 5 interior spaces, 120 letters. -/
def c5x : String := String.mk (List.replicate 275 'a' ++ List.replicate 5 ' ' ++ List.replicate 120 'a')

/-- A 400-character string of letters. -/
def c5y : String := String.mk (List.replicate 400 'a')

/-
Shared lemmas.
-/

theorem lastN_length_le (n : Nat) (l : List α) : (lastN n l).length ≤ n := by
  simp only [lastN, List.length_drop]; omega

theorem lastN_sublist (n : Nat) (l : List α) : (lastN n l).Sublist l := List.drop_sublist _ _

theorem mem_of_mem_lastN {n : Nat} {l : List α} {x : α} (h : x ∈ lastN n l) : x ∈ l :=
  (lastN_sublist n l).subset h

theorem lastN_append_of_length (l m : List α) (k : Nat) (h : m.length = k) :
    lastN k (l ++ m) = m := by
  subst h
  simp only [lastN, List.length_append]
  rw [Nat.add_sub_cancel, List.drop_left]

theorem merge_dedup_nodup_aux (l : List String) :
    ∀ seen, (merge_dedup seen l).Nodup ∧ ∀ x ∈ merge_dedup seen l, x ∉ seen := by
  induction l with
  | nil => intro seen; exact ⟨List.nodup_nil, by intro x hx; cases hx⟩
  | cons y ys ih =>
    intro seen
    unfold merge_dedup
    by_cases hc : y ≠ "" ∧ y ∉ seen
    · rw [if_pos hc]
      obtain ⟨hnd, hmem⟩ := ih (y :: seen)
      refine ⟨List.nodup_cons.2 ⟨fun hy => (hmem y hy) (List.mem_cons_self _ _), hnd⟩, ?_⟩
      intro x hx
      rcases List.mem_cons.1 hx with rfl | hx'
      · exact hc.2
      · exact fun hs => (hmem x hx') (List.mem_cons_of_mem _ hs)
    · rw [if_neg hc]; exact ih seen

theorem merge_with_limit_nodup (ex ni : List String) (lim : Nat) :
    (merge_with_limit ex ni lim).Nodup := by
  unfold merge_with_limit
  have h := (merge_dedup_nodup_aux (ex ++ ni) []).1
  split
  · exact (lastN_sublist _ _).nodup h
  · exact h

theorem merge_with_limit_length_le (ex ni : List String) (lim : Nat) (h : lim ≠ 0) :
    (merge_with_limit ex ni lim).length ≤ lim := by
  unfold merge_with_limit
  rw [if_pos h]
  exact lastN_length_le _ _

theorem merge_dedup_eq_dedup_first (l : List String) :
    ∀ seen, (∀ x ∈ l, x ≠ "") → merge_dedup seen l = dedup_first seen l := by
  induction l with
  | nil => intro seen _; rfl
  | cons y ys ih =>
    intro seen h
    have hy : y ≠ "" := h y (List.mem_cons_self _ _)
    have hys : ∀ x ∈ ys, x ≠ "" := fun x hx => h x (List.mem_cons_of_mem _ hx)
    unfold merge_dedup dedup_first
    by_cases hmem : y ∈ seen
    · rw [if_neg (fun hc => hc.2 hmem), if_pos hmem]
      exact ih seen hys
    · rw [if_pos ⟨hy, hmem⟩, if_neg hmem, ih (y :: seen) hys]

theorem writtenCount_update_congr {n : Nat} (th : Fin n → TState) (i : Fin n) (v : TState)
    (h : v.wrote = (th i).wrote) :
    writtenCount (Function.update th i v) = writtenCount th := by
  unfold writtenCount
  congr 1
  ext j
  simp only [Finset.mem_filter, Finset.mem_univ, true_and, Function.update_apply]
  rcases eq_or_ne j i with rfl | hne
  · simp [h]
  · simp [hne]

theorem writtenCount_update_succ {n : Nat} (th : Fin n → TState) (i : Fin n) (v : TState)
    (hold : (th i).wrote = false) (hnew : v.wrote = true) :
    writtenCount (Function.update th i v) = writtenCount th + 1 := by
  unfold writtenCount
  have hset : (Finset.univ.filter (fun j => ((Function.update th i v) j).wrote = true)) =
      insert i (Finset.univ.filter (fun j => (th j).wrote = true)) := by
    ext j
    simp only [Finset.mem_filter, Finset.mem_univ, true_and, Finset.mem_insert,
      Function.update_apply]
    rcases eq_or_ne j i with rfl | hne
    · simp [hnew]
    · simp [hne]
  rw [hset, Finset.card_insert_of_not_mem (by simp [hold])]

theorem step_inv {n : Nat} {ts lu : Fin n → String} {u a : Fin n → Option String} {i : Fin n}
    {x y : Sys n} (hs : Step ts lu u a i x y) (hx : Inv x) : Inv y := by
  obtain ⟨h1, h2, h3⟩ := hx
  cases hs with
  | acquire st th h =>
    dsimp only at h1 h2 h3
    refine ⟨?_, ?_, ?_⟩
    · intro j hj
      dsimp only at hj ⊢
      rcases eq_or_ne j i with rfl | hne
      · rfl
      · rw [Function.update_noteq hne] at hj
        exact Option.noConfusion (h1 j hj)
    · dsimp only
      rw [writtenCount_update_congr th i _ (by rw [h]; rfl)]
      exact h2
    · intro j ctx m hj
      dsimp only at hj ⊢
      rcases eq_or_ne j i with rfl | hne
      · rw [Function.update_same] at hj
        exact TState.noConfusion hj
      · rw [Function.update_noteq hne] at hj
        exact h3 j ctx m hj
  | readCtx st L th h =>
    dsimp only at h1 h2 h3
    refine ⟨?_, ?_, ?_⟩
    · intro j hj
      dsimp only at hj ⊢
      rcases eq_or_ne j i with rfl | hne
      · exact h1 j (by rw [h]; rfl)
      · rw [Function.update_noteq hne] at hj
        exact h1 j hj
    · dsimp only
      rw [writtenCount_update_congr th i _ (by rw [h]; rfl)]
      exact h2
    · intro j ctx m hj
      dsimp only at hj ⊢
      rcases eq_or_ne j i with rfl | hne
      · rw [Function.update_same] at hj
        exact TState.noConfusion hj
      · rw [Function.update_noteq hne] at hj
        exact h3 j ctx m hj
  | writeCtx st L th ctx h =>
    dsimp only at h1 h2 h3
    refine ⟨?_, ?_, ?_⟩
    · intro j hj
      dsimp only at hj ⊢
      rcases eq_or_ne j i with rfl | hne
      · exact h1 j (by rw [h]; rfl)
      · rw [Function.update_noteq hne] at hj
        exact h1 j hj
    · dsimp only
      rw [writtenCount_update_congr th i _ (by rw [h]; rfl)]
      exact h2
    · intro j ctx' m hj
      dsimp only at hj ⊢
      rcases eq_or_ne j i with rfl | hne
      · rw [Function.update_same] at hj
        exact TState.noConfusion hj
      · rw [Function.update_noteq hne] at hj
        exact h3 j ctx' m hj
  | readSum st L th ctx h =>
    dsimp only at h1 h2 h3
    refine ⟨?_, ?_, ?_⟩
    · intro j hj
      dsimp only at hj ⊢
      rcases eq_or_ne j i with rfl | hne
      · exact h1 j (by rw [h]; rfl)
      · rw [Function.update_noteq hne] at hj
        exact h1 j hj
    · dsimp only
      rw [writtenCount_update_congr th i _ (by rw [h]; rfl)]
      exact h2
    · intro j ctx' m hj
      dsimp only at hj ⊢
      rcases eq_or_ne j i with rfl | hne
      · rw [Function.update_same] at hj
        injection hj with hc hm
        subst hc
        subst hm
        rfl
      · rw [Function.update_noteq hne] at hj
        exact h3 j ctx' m hj
  | writeSum st L th ctx m h =>
    dsimp only at h1 h2 h3
    refine ⟨?_, ?_, ?_⟩
    · intro j hj
      dsimp only at hj ⊢
      rcases eq_or_ne j i with rfl | hne
      · exact h1 j (by rw [h]; rfl)
      · rw [Function.update_noteq hne] at hj
        exact h1 j hj
    · dsimp only
      have hm := h3 i ctx m h
      rw [writtenCount_update_succ th i TState.s5 (by rw [h]; rfl) rfl, hm, h2]
      push_cast
      ring
    · intro j ctx' m' hj
      dsimp only at hj ⊢
      rcases eq_or_ne j i with rfl | hne
      · rw [Function.update_same] at hj
        exact TState.noConfusion hj
      · rw [Function.update_noteq hne] at hj
        have hji := h1 j (by rw [hj]; rfl)
        have hii := h1 i (by rw [h]; rfl)
        exact absurd (Option.some.inj (hji.symm.trans hii)) hne
  | release st th h =>
    dsimp only at h1 h2 h3
    refine ⟨?_, ?_, ?_⟩
    · intro j hj
      dsimp only at hj ⊢
      rcases eq_or_ne j i with rfl | hne
      · rw [Function.update_same] at hj
        exact Bool.noConfusion hj
      · rw [Function.update_noteq hne] at hj
        have := h1 j hj
        exact absurd (Option.some.inj this).symm hne
    · dsimp only
      rw [writtenCount_update_congr th i _ (by rw [h]; rfl)]
      exact h2
    · intro j ctx m hj
      dsimp only at hj ⊢
      rcases eq_or_ne j i with rfl | hne
      · rw [Function.update_same] at hj
        exact TState.noConfusion hj
      · rw [Function.update_noteq hne] at hj
        exact h3 j ctx m hj

theorem reaches_inv {n : Nat} {ts lu : Fin n → String} {u a : Fin n → Option String}
    {x y : Sys n} (h : Reaches ts lu u a x y) (hx : Inv x) : Inv y := by
  induction h with
  | refl => exact hx
  | tail _ hstep ih =>
    obtain ⟨i, hi⟩ := hstep
    exact step_inv hi ih

theorem init_inv (n : Nat) : Inv (Sys.init n) := by
  refine ⟨?_, ?_, ?_⟩
  · intro i hi
    simp [Sys.init, TState.inBody] at hi
  · simp [Sys.init, writtenCount, TState.wrote, emptySummary]
  · intro i ctx m hi
    simp [Sys.init] at hi

/-
Claim theorems.
-/

set_option maxHeartbeats 4000000 in
set_option maxRecDepth 100000 in
/-- C1 counterexample: with the RecentContext write succeeding and the
Summary write failing, `record_exchange` leaves a state in which the new
entry is persisted in RecentContext while Summary is untouched — neither
"both documents updated" nor "neither document updated" holds, refuting
the all-or-nothing claim. -/
theorem C1_counterexample :
    record_exchange_io true false "t" "n" (some "hi") (some "yo") ⟨[], emptySummary⟩ ≠
      (⟨[], emptySummary⟩ : MemoryStore) ∧
    record_exchange_io true false "t" "n" (some "hi") (some "yo") ⟨[], emptySummary⟩ ≠
      record_exchange_io true true "t" "n" (some "hi") (some "yo") ⟨[], emptySummary⟩ := by
  decide

/-- C1 (amended): `update_memory` writes RecentContext first and Summary
second with no buffering or rollback.  If both writes succeed, both
documents are consistently updated; if the RecentContext write fails,
neither document changes; but if only the Summary write fails,
RecentContext retains the new entry while Summary keeps its old value, so
the exchange is atomic only when no write fails. -/
theorem C1_amended (entry_ts last_updated : String) (u a : Option String)
    (st : MemoryStore) (b : Bool) :
    record_exchange_io true true entry_ts last_updated u a st =
      ⟨(update_memory entry_ts last_updated u a st.recentDoc st.summaryDoc).1,
       (update_memory entry_ts last_updated u a st.recentDoc st.summaryDoc).2⟩ ∧
    record_exchange_io false b entry_ts last_updated u a st = st ∧
    record_exchange_io true false entry_ts last_updated u a st =
      ⟨(update_memory entry_ts last_updated u a st.recentDoc st.summaryDoc).1,
       st.summaryDoc⟩ :=
  ⟨rfl, rfl, rfl⟩

/-- C4: the interest-tag merge equals the spec's order-preserving,
first-occurrence dedup of `existing ++ new` followed by keeping the last
6, for interest tags (non-empty strings); in particular merging
`[a,b,c,d,e,f]` with `[g]` yields `[b,c,d,e,f,g]`. -/
theorem C4_merge_spec :
    (∀ existing new_items : List String, (∀ x ∈ existing ++ new_items, x ≠ "") →
      merge_with_limit existing new_items MAX_INTEREST_TAGS =
        lastN MAX_INTEREST_TAGS (dedup_first [] (existing ++ new_items))) ∧
    merge_with_limit ["a", "b", "c", "d", "e", "f"] ["g"] 6 = ["b", "c", "d", "e", "f", "g"] := by
  constructor
  · intro ex ni h
    unfold merge_with_limit
    rw [merge_dedup_eq_dedup_first _ _ h, if_pos (by decide : MAX_INTEREST_TAGS ≠ 0)]
  · decide

/-- C4 witness: the general statement applied at concrete tag lists. -/
theorem C4_witness :
    merge_with_limit ["x", "y"] ["y", "z"] MAX_INTEREST_TAGS =
      lastN MAX_INTEREST_TAGS (dedup_first [] (["x", "y"] ++ ["y", "z"])) :=
  C4_merge_spec.1 ["x", "y"] ["y", "z"] (by decide)

/-- C6 counterexample: on absent input the classifier does not yield the
input unchanged — `classify_mood_hint` returns the string `"neutral"` (and
`extract_interest_tags` returns `[]`), not the absent value. -/
theorem C6_counterexample :
    classify_mood_hint none = "neutral" ∧ extract_interest_tags none = [] ∧
    some (classify_mood_hint none) ≠ (none : Option String) := by
  refine ⟨by decide, by decide, by simp⟩

/-- C6 (amended): the Redactor and Classifier are total on string input
including the empty string; on absent/empty input `redact_pii` returns the
input unchanged, while `classify_mood_hint` returns `"neutral"` and
`extract_interest_tags` returns `[]` (the classifiers treat absent input
as the empty string); and the mood is always one of the three values. -/
theorem C6_amended :
    redact_pii none = none ∧ redact_pii (some "") = some "" ∧
    classify_mood_hint none = "neutral" ∧ classify_mood_hint (some "") = "neutral" ∧
    extract_interest_tags none = [] ∧ extract_interest_tags (some "") = [] ∧
    ∀ t : Option String, classify_mood_hint t = "needs_support" ∨
      classify_mood_hint t = "upbeat" ∨ classify_mood_hint t = "neutral" := by
  refine ⟨rfl, by decide, by decide, by decide, by decide, by decide, ?_⟩
  intro t
  simp only [classify_mood_hint]
  split
  · exact Or.inl rfl
  · split
    · exact Or.inr (Or.inl rfl)
    · exact Or.inr (Or.inr rfl)

set_option maxHeartbeats 4000000 in
set_option maxRecDepth 100000 in
/-- C7: name redaction replaces only the capitalized-word spans after the
trigger phrase, keeping the phrase itself. -/
theorem C7_name_redaction :
    redact_pii (some "my name is Priya Sharma") =
      some "my name is [NAME_REDACTED] [NAME_REDACTED]" := by decide

/-- C8: after any `record_exchange` merge, the Summary invariants hold:
interest-tags has no duplicates and at most 6 entries, recent-moods has at
most 10 entries, recent-highlights at most 3. -/
theorem C8_summary_invariants (entry_ts last_updated : String) (u a : Option String)
    (ctx : List MemoryEntry) (sum : Summary) :
    (update_memory entry_ts last_updated u a ctx sum).2.interest_tags.Nodup ∧
    (update_memory entry_ts last_updated u a ctx sum).2.interest_tags.length ≤ MAX_INTEREST_TAGS ∧
    (update_memory entry_ts last_updated u a ctx sum).2.recent_moods.length ≤ MAX_MEMORY_ENTRIES ∧
    (update_memory entry_ts last_updated u a ctx sum).2.recent_highlights.length ≤ 3 := by
  refine ⟨?_, ?_, ?_, ?_⟩
  · show (merge_with_limit sum.interest_tags
      (extract_interest_tags (some (sanitize_memory_text u))) MAX_INTEREST_TAGS).Nodup
    exact merge_with_limit_nodup _ _ _
  · show (merge_with_limit sum.interest_tags
      (extract_interest_tags (some (sanitize_memory_text u))) MAX_INTEREST_TAGS).length ≤ MAX_INTEREST_TAGS
    exact merge_with_limit_length_le _ _ _ (by decide)
  · show (lastN MAX_MEMORY_ENTRIES
      (sum.recent_moods ++ [classify_mood_hint (some (sanitize_memory_text u))])).length ≤ MAX_MEMORY_ENTRIES
    exact lastN_length_le _ _
  · show (lastN 3 (((new_context entry_ts u a ctx).filter
      (fun e => e.user ≠ "")).map (fun e => e.user))).length ≤ 3
    exact lastN_length_le _ _

/-- C10: the storage sanitizer maps falsy input (absent or empty) to the
empty string, and every entry `update_memory` stores carries sanitizer
output (always a string) in its user and agent fields. -/
theorem C10_sanitize_falsy (entry_ts last_updated : String) (u a : Option String)
    (ctx : List MemoryEntry) (sum : Summary) :
    sanitize_memory_text none = "" ∧ sanitize_memory_text (some "") = "" ∧
    ∀ e ∈ (update_memory entry_ts last_updated u a ctx sum).1,
      e ∈ ctx ∨ (e.user = sanitize_memory_text u ∧ e.agent = sanitize_memory_text a) := by
  refine ⟨rfl, by decide, ?_⟩
  intro e he
  have he' : e ∈ ctx ++
      [({ timestamp := entry_ts, user := sanitize_memory_text u,
          agent := sanitize_memory_text a,
          mood_hint := classify_mood_hint (some (sanitize_memory_text u)),
          interest_tags := extract_interest_tags (some (sanitize_memory_text u)) } : MemoryEntry)] := by
    have h0 : (update_memory entry_ts last_updated u a ctx sum).1 = new_context entry_ts u a ctx := rfl
    rw [h0] at he
    simp only [new_context] at he
    split at he
    · exact mem_of_mem_lastN he
    · exact he
  rcases List.mem_append.1 he' with h | h
  · exact Or.inl h
  · rcases List.mem_singleton.1 h with rfl
    exact Or.inr ⟨rfl, rfl⟩

set_option maxHeartbeats 8000000 in
set_option maxRecDepth 1000000 in
theorem c5x_pass01 : reSub true phonePat1 (fun _ => "[PHONE_REDACTED]".data) c5x.data = c5x.data := by decide

set_option maxHeartbeats 8000000 in
set_option maxRecDepth 1000000 in
theorem c5x_pass02 : reSub true phonePat2 (fun _ => "[PHONE_REDACTED]".data) c5x.data = c5x.data := by decide

set_option maxHeartbeats 8000000 in
set_option maxRecDepth 1000000 in
theorem c5x_pass03 : reSub true phonePat3 (fun _ => "[PHONE_REDACTED]".data) c5x.data = c5x.data := by decide

set_option maxHeartbeats 8000000 in
set_option maxRecDepth 1000000 in
theorem c5x_pass04 : reSub false emailPat (fun _ => "[EMAIL_REDACTED]".data) c5x.data = c5x.data := by decide

set_option maxHeartbeats 8000000 in
set_option maxRecDepth 1000000 in
theorem c5x_pass05 : reSub true addrPat1 (fun _ => "[ADDRESS_REDACTED]".data) c5x.data = c5x.data := by decide

set_option maxHeartbeats 8000000 in
set_option maxRecDepth 1000000 in
theorem c5x_pass06 : reSub true addrPat2 (fun _ => "[ADDRESS_REDACTED]".data) c5x.data = c5x.data := by decide

set_option maxHeartbeats 8000000 in
set_option maxRecDepth 1000000 in
theorem c5x_pass07 : reSub true addrPat3 (fun _ => "[ADDRESS_REDACTED]".data) c5x.data = c5x.data := by decide

set_option maxHeartbeats 8000000 in
set_option maxRecDepth 1000000 in
theorem c5x_pass08 : reSub true schoolPat1 (fun _ => "[SCHOOL_REDACTED]".data) c5x.data = c5x.data := by decide

set_option maxHeartbeats 8000000 in
set_option maxRecDepth 1000000 in
theorem c5x_pass09 : reSub true schoolPat2 (fun _ => "[SCHOOL_REDACTED]".data) c5x.data = c5x.data := by decide

set_option maxHeartbeats 8000000 in
set_option maxRecDepth 1000000 in
theorem c5x_pass10 : reSub true schoolPat3 (fun _ => "[SCHOOL_REDACTED]".data) c5x.data = c5x.data := by decide

set_option maxHeartbeats 8000000 in
set_option maxRecDepth 1000000 in
theorem c5x_pass11 : reSub true schoolPat4 (fun _ => "[SCHOOL_REDACTED]".data) c5x.data = c5x.data := by decide

set_option maxHeartbeats 8000000 in
set_option maxRecDepth 1000000 in
theorem c5x_pass12 : reSub false namePat1 nameSpanRepl c5x.data = c5x.data := by decide

set_option maxHeartbeats 8000000 in
set_option maxRecDepth 1000000 in
theorem c5x_pass13 : reSub false namePat2 nameSpanRepl c5x.data = c5x.data := by decide

set_option maxHeartbeats 8000000 in
set_option maxRecDepth 1000000 in
theorem c5x_pass14 : reSub false namePat3 nameSpanRepl c5x.data = c5x.data := by decide

set_option maxHeartbeats 8000000 in
set_option maxRecDepth 1000000 in
theorem c5x_pass15 : reSub true agePat1 (fun _ => "[AGE_REDACTED]".data) c5x.data = c5x.data := by decide

set_option maxHeartbeats 8000000 in
set_option maxRecDepth 1000000 in
theorem c5x_pass16 : reSub true agePat2 (fun _ => "[AGE_REDACTED]".data) c5x.data = c5x.data := by decide

set_option maxHeartbeats 8000000 in
set_option maxRecDepth 1000000 in
theorem c5x_pass17 : reSub true agePat3 (fun _ => "[AGE_REDACTED]".data) c5x.data = c5x.data := by decide

set_option maxHeartbeats 8000000 in
set_option maxRecDepth 1000000 in
theorem c5x_pass18 : reSub true agePat4 (fun _ => "[AGE_REDACTED]".data) c5x.data = c5x.data := by decide

set_option maxHeartbeats 8000000 in
set_option maxRecDepth 1000000 in
theorem c5x_pass19 : reSub true locPat1 (fun _ => "[LOCATION_REDACTED]".data) c5x.data = c5x.data := by decide

set_option maxHeartbeats 8000000 in
set_option maxRecDepth 1000000 in
theorem c5x_pass20 : reSub true locPat2 (fun _ => "[LOCATION_REDACTED]".data) c5x.data = c5x.data := by decide

set_option maxHeartbeats 8000000 in
set_option maxRecDepth 1000000 in
theorem c5x_pass21 : reSub true locPat3 (fun _ => "[LOCATION_REDACTED]".data) c5x.data = c5x.data := by decide

theorem c5x_stable : redact_pii_chars c5x.data = c5x.data := by
  simp only [redact_pii_chars]
  rw [c5x_pass01, c5x_pass02, c5x_pass03, c5x_pass04, c5x_pass05, c5x_pass06, c5x_pass07, c5x_pass08, c5x_pass09, c5x_pass10, c5x_pass11, c5x_pass12, c5x_pass13, c5x_pass14, c5x_pass15, c5x_pass16, c5x_pass17, c5x_pass18, c5x_pass19, c5x_pass20, c5x_pass21]

set_option maxHeartbeats 8000000 in
set_option maxRecDepth 1000000 in
theorem c5y_pass01 : reSub true phonePat1 (fun _ => "[PHONE_REDACTED]".data) c5y.data = c5y.data := by decide

set_option maxHeartbeats 8000000 in
set_option maxRecDepth 1000000 in
theorem c5y_pass02 : reSub true phonePat2 (fun _ => "[PHONE_REDACTED]".data) c5y.data = c5y.data := by decide

set_option maxHeartbeats 8000000 in
set_option maxRecDepth 1000000 in
theorem c5y_pass03 : reSub true phonePat3 (fun _ => "[PHONE_REDACTED]".data) c5y.data = c5y.data := by decide

set_option maxHeartbeats 8000000 in
set_option maxRecDepth 1000000 in
theorem c5y_pass04 : reSub false emailPat (fun _ => "[EMAIL_REDACTED]".data) c5y.data = c5y.data := by decide

set_option maxHeartbeats 8000000 in
set_option maxRecDepth 1000000 in
theorem c5y_pass05 : reSub true addrPat1 (fun _ => "[ADDRESS_REDACTED]".data) c5y.data = c5y.data := by decide

set_option maxHeartbeats 8000000 in
set_option maxRecDepth 1000000 in
theorem c5y_pass06 : reSub true addrPat2 (fun _ => "[ADDRESS_REDACTED]".data) c5y.data = c5y.data := by decide

set_option maxHeartbeats 8000000 in
set_option maxRecDepth 1000000 in
theorem c5y_pass07 : reSub true addrPat3 (fun _ => "[ADDRESS_REDACTED]".data) c5y.data = c5y.data := by decide

set_option maxHeartbeats 8000000 in
set_option maxRecDepth 1000000 in
theorem c5y_pass08 : reSub true schoolPat1 (fun _ => "[SCHOOL_REDACTED]".data) c5y.data = c5y.data := by decide

set_option maxHeartbeats 8000000 in
set_option maxRecDepth 1000000 in
theorem c5y_pass09 : reSub true schoolPat2 (fun _ => "[SCHOOL_REDACTED]".data) c5y.data = c5y.data := by decide

set_option maxHeartbeats 8000000 in
set_option maxRecDepth 1000000 in
theorem c5y_pass10 : reSub true schoolPat3 (fun _ => "[SCHOOL_REDACTED]".data) c5y.data = c5y.data := by decide

set_option maxHeartbeats 8000000 in
set_option maxRecDepth 1000000 in
theorem c5y_pass11 : reSub true schoolPat4 (fun _ => "[SCHOOL_REDACTED]".data) c5y.data = c5y.data := by decide

set_option maxHeartbeats 8000000 in
set_option maxRecDepth 1000000 in
theorem c5y_pass12 : reSub false namePat1 nameSpanRepl c5y.data = c5y.data := by decide

set_option maxHeartbeats 8000000 in
set_option maxRecDepth 1000000 in
theorem c5y_pass13 : reSub false namePat2 nameSpanRepl c5y.data = c5y.data := by decide

set_option maxHeartbeats 8000000 in
set_option maxRecDepth 1000000 in
theorem c5y_pass14 : reSub false namePat3 nameSpanRepl c5y.data = c5y.data := by decide

set_option maxHeartbeats 8000000 in
set_option maxRecDepth 1000000 in
theorem c5y_pass15 : reSub true agePat1 (fun _ => "[AGE_REDACTED]".data) c5y.data = c5y.data := by decide

set_option maxHeartbeats 8000000 in
set_option maxRecDepth 1000000 in
theorem c5y_pass16 : reSub true agePat2 (fun _ => "[AGE_REDACTED]".data) c5y.data = c5y.data := by decide

set_option maxHeartbeats 8000000 in
set_option maxRecDepth 1000000 in
theorem c5y_pass17 : reSub true agePat3 (fun _ => "[AGE_REDACTED]".data) c5y.data = c5y.data := by decide

set_option maxHeartbeats 8000000 in
set_option maxRecDepth 1000000 in
theorem c5y_pass18 : reSub true agePat4 (fun _ => "[AGE_REDACTED]".data) c5y.data = c5y.data := by decide

set_option maxHeartbeats 8000000 in
set_option maxRecDepth 1000000 in
theorem c5y_pass19 : reSub true locPat1 (fun _ => "[LOCATION_REDACTED]".data) c5y.data = c5y.data := by decide

set_option maxHeartbeats 8000000 in
set_option maxRecDepth 1000000 in
theorem c5y_pass20 : reSub true locPat2 (fun _ => "[LOCATION_REDACTED]".data) c5y.data = c5y.data := by decide

set_option maxHeartbeats 8000000 in
set_option maxRecDepth 1000000 in
theorem c5y_pass21 : reSub true locPat3 (fun _ => "[LOCATION_REDACTED]".data) c5y.data = c5y.data := by decide

theorem c5y_stable : redact_pii_chars c5y.data = c5y.data := by
  simp only [redact_pii_chars]
  rw [c5y_pass01, c5y_pass02, c5y_pass03, c5y_pass04, c5y_pass05, c5y_pass06, c5y_pass07, c5y_pass08, c5y_pass09, c5y_pass10, c5y_pass11, c5y_pass12, c5y_pass13, c5y_pass14, c5y_pass15, c5y_pass16, c5y_pass17, c5y_pass18, c5y_pass19, c5y_pass20, c5y_pass21]

theorem pyRstrip_length_le (l : List Char) : (pyRstrip l).length ≤ l.length := by
  simp only [pyRstrip, List.length_reverse]
  have h := (List.dropWhile_suffix (l := l.reverse) pyIsSpace).sublist.length_le
  simpa using h

set_option maxHeartbeats 80000000 in
set_option maxRecDepth 1000000 in
/-- C5 counterexample: a 400-character redaction-stable, whitespace-trimmed
string whose 280-character prefix ends in spaces; the sanitizer right-strips
the prefix before appending the ellipsis, so the output has 278 characters,
not 283. -/
theorem C5_counterexample :
    c5x.length = 400 ∧ redact_pii (some c5x) = some c5x ∧
    String.mk (pyStrip c5x.data) = c5x ∧
    (sanitize_memory_text (some c5x)).length = 278 ∧
    (sanitize_memory_text (some c5x)).length ≠ 283 := by
  have hne : c5x ≠ "" := by decide
  have h : redact_pii_chars c5x.data = c5x.data := c5x_stable
  have hlen : (sanitize_memory_text (some c5x)).length = 278 := by
    simp only [sanitize_memory_text]
    rw [if_neg hne, h]
    decide
  refine ⟨by decide, ?_, by decide, hlen, by omega⟩
  show (if c5x = "" then some c5x else some (String.mk (redact_pii_chars c5x.data))) = some c5x
  rw [if_neg hne, h]

/-- C5 (amended): `sanitize_memory_text` always returns at most 283
characters; for a 400-character redaction-stable, trimmed input the output
is the right-stripped 280-character prefix plus `"..."` (so it always ends
with `"..."`), and it is exactly 283 characters when that prefix carries no
trailing whitespace. -/
theorem C5_amended :
    (∀ t : Option String, (sanitize_memory_text t).length ≤ 283) ∧
    (∀ s : String, s.length = 400 → redact_pii_chars s.data = s.data →
      pyStrip s.data = s.data →
      sanitize_memory_text (some s) = String.mk (pyRstrip (s.data.take 280) ++ "...".data) ∧
      lastN 3 (sanitize_memory_text (some s)).data = "...".data ∧
      (pyRstrip (s.data.take 280) = s.data.take 280 →
        (sanitize_memory_text (some s)).length = 283)) := by
  constructor
  · intro t
    match t with
    | none => simp [sanitize_memory_text]
    | some s =>
      by_cases hs : s = ""
      · subst hs; simp [sanitize_memory_text]
      · simp only [sanitize_memory_text]
        rw [if_neg hs]
        split
        · show (pyRstrip ((pyStrip (redact_pii_chars s.data)).take MAX_MEMORY_TEXT_LENGTH) ++
            "...".data).length ≤ 283
          rw [List.length_append]
          have h1 := pyRstrip_length_le ((pyStrip (redact_pii_chars s.data)).take MAX_MEMORY_TEXT_LENGTH)
          have h2 : ((pyStrip (redact_pii_chars s.data)).take MAX_MEMORY_TEXT_LENGTH).length ≤ 280 := by
            rw [List.length_take]
            exact Nat.min_le_left _ _
          have h3 : ("...".data).length = 3 := rfl
          omega
        · next hlt =>
          show (pyStrip (redact_pii_chars s.data)).length ≤ 283
          simp only [MAX_MEMORY_TEXT_LENGTH] at hlt
          omega
  · intro s h400 hred hstrip
    have hne : s ≠ "" := by
      intro hc; rw [hc] at h400; exact absurd h400 (by decide)
    have hdl : s.data.length = 400 := h400
    have key : sanitize_memory_text (some s) =
        String.mk (pyRstrip (s.data.take 280) ++ "...".data) := by
      simp only [sanitize_memory_text]
      rw [if_neg hne, hred, hstrip, if_pos (by rw [hdl]; decide :
        MAX_MEMORY_TEXT_LENGTH < s.data.length)]
      rfl
    refine ⟨key, ?_, ?_⟩
    · rw [key]
      exact lastN_append_of_length _ _ _ rfl
    · intro hr
      rw [key]
      show (pyRstrip (s.data.take 280) ++ "...".data).length = 283
      rw [hr, List.length_append, List.length_take]
      rw [hdl]
      decide

set_option maxHeartbeats 80000000 in
set_option maxRecDepth 1000000 in
/-- C5 witness: the amended statement applied to a 400-character string of
letters, whose sanitized form is exactly 283 characters. -/
theorem C5_witness :
    sanitize_memory_text (some c5y) = String.mk (pyRstrip (c5y.data.take 280) ++ "...".data) ∧
    (sanitize_memory_text (some c5y)).length = 283 := by
  have h := C5_amended.2 c5y (by decide) c5y_stable (by decide)
  exact ⟨h.1, h.2.2 (by decide)⟩

theorem isWordChar_of_toLower {c : Char} (h : isWordChar c.toLower = true) :
    isWordChar c = true := by
  by_cases hc : c.toNat ≥ 65 ∧ c.toNat ≤ 90
  · simp [isWordChar, hc.1, hc.2]
  · have : c.toLower = c := by
      simp only [Char.toLower]
      rw [if_neg hc]
    rwa [this] at h

theorem apologyWord_chars : ∀ c ∈ apologyWord, isWordChar c = true := by decide

theorem prevAt_cons (p : Option Char) (c : Char) (rest : List Char) (i : Nat) :
    prevAt p (c :: rest) (i + 1) = prevAt (some c) rest i := by
  cases i with
  | zero => simp [prevAt]
  | succ n => simp [prevAt]

theorem apologyWord_length : apologyWord.length = 5 := rfl

theorem apologyAt_false_of_short {p : Option Char} {u : List Char} (h : u.length < 5) :
    apologyAt p u = false := by
  unfold apologyAt
  have hne : ((u.take 5).map Char.toLower == apologyWord) = false := by
    rw [beq_eq_false_iff_ne]
    intro hcontra
    have hlen := congrArg List.length hcontra
    simp only [List.length_map, List.length_take, apologyWord_length] at hlen
    omega
  rw [hne]
  simp

theorem apologyAt_take5 {p : Option Char} {u : List Char} (h : apologyAt p u = true) :
    (u.take 5).map Char.toLower = apologyWord := by
  simp only [apologyAt, Bool.and_eq_true, beq_iff_eq] at h
  exact h.1.2

theorem apologyAt_length {p : Option Char} {u : List Char} (h : apologyAt p u = true) :
    5 ≤ u.length := by
  have hlen := congrArg List.length (apologyAt_take5 h)
  simp only [List.length_map, List.length_take, apologyWord_length] at hlen
  omega

theorem apologyAt_prev {p : Option Char} {u : List Char} (h : apologyAt p u = true) :
    wordy p = false := by
  simp only [apologyAt, Bool.and_eq_true, Bool.not_eq_true'] at h
  exact h.1.1

theorem apologyAt_after {p : Option Char} {u : List Char} {d : Char}
    (h : apologyAt p u = true) (hd : (u.drop 5).head? = some d) : isWordChar d = false := by
  simp only [apologyAt, Bool.and_eq_true] at h
  have h2 := h.2
  rw [hd] at h2
  simpa using h2

theorem apologyAt_word_chars {p : Option Char} {u : List Char} (h : apologyAt p u = true) :
    ∀ c ∈ u.take 5, isWordChar c = true := by
  intro c hc
  have hmap := apologyAt_take5 h
  have : c.toLower ∈ apologyWord := by
    rw [← hmap]
    exact List.mem_map_of_mem _ hc
  exact isWordChar_of_toLower (apologyWord_chars _ this)

theorem apologyAt_false_of_nonword_at {p : Option Char} {u : List Char} {j : Nat} {c : Char}
    (hj : j < 5) (hc : u[j]? = some c) (hw : isWordChar c = false) :
    apologyAt p u = false := by
  by_contra hcontra
  rw [Bool.not_eq_false] at hcontra
  have hmem : c ∈ u.take 5 := by
    have hg : (u.take 5)[j]? = some c := by
      rw [List.getElem?_take_of_lt hj]
      exact hc
    exact List.getElem?_mem hg
  rw [apologyAt_word_chars hcontra c hmem] at hw
  cases hw

theorem apologyAt_false_of_prev_word {p : Option Char} {u : List Char}
    (h : wordy p = true) : apologyAt p u = false := by
  by_contra hcontra
  rw [Bool.not_eq_false] at hcontra
  rw [apologyAt_prev hcontra] at h
  cases h

theorem apologyAt_congr {p : Option Char} {u v : List Char} (h : u.take 6 = v.take 6) :
    apologyAt p u = apologyAt p v := by
  have h5 : u.take 5 = v.take 5 := by
    have : (u.take 6).take 5 = (v.take 6).take 5 := by rw [h]
    simpa [List.take_take] using this
  have hh : (u.drop 5).head? = (v.drop 5).head? := by
    rw [List.head?_drop, List.head?_drop]
    have h6 : (u.take 6)[5]? = (v.take 6)[5]? := by rw [h]
    rwa [List.getElem?_take_of_lt (by omega), List.getElem?_take_of_lt (by omega)] at h6
  unfold apologyAt
  rw [h5, hh]

theorem prevEnd_nil (p : Option Char) : prevEnd p [] = p := rfl

theorem prevEnd_cons (p : Option Char) (c : Char) (u' : List Char) :
    prevEnd p (c :: u') = prevEnd (some c) u' := by
  unfold prevEnd
  simp only [List.length_cons]
  exact prevAt_cons p c u' u'.length

theorem apologySplitF_join : ∀ (fuel : Nat) (p : Option Char) (s : List Char),
    (apologySplitF fuel p s).1 ++
      ((apologySplitF fuel p s).2.map (fun q => q.1 ++ q.2)).flatten = s := by
  intro fuel
  induction fuel with
  | zero => intro p s; simp [apologySplitF]
  | succ g ih =>
    intro p s
    cases s with
    | nil => simp [apologySplitF]
    | cons c rest =>
      simp only [apologySplitF]
      by_cases hm : apologyAt p (c :: rest) = true
      · rw [if_pos hm]
        have hq := ih ((c :: rest).take 5).getLast? ((c :: rest).drop 5)
        simp only [List.map_cons, List.flatten_cons, List.nil_append]
        rw [List.append_assoc, hq]
        exact List.take_append_drop 5 (c :: rest)
      · rw [if_neg hm]
        have hq := ih (some c) rest
        simpa using hq

theorem apologySplitF_fuel : ∀ (f1 : Nat) (p : Option Char) (s : List Char) (f2 : Nat),
    s.length < f1 → s.length < f2 → apologySplitF f1 p s = apologySplitF f2 p s := by
  intro f1
  induction f1 with
  | zero => intro p s f2 h1 _; omega
  | succ g ih =>
    intro p s f2 h1 h2
    cases f2 with
    | zero => omega
    | succ g2 =>
      cases s with
      | nil => rfl
      | cons c rest =>
        simp only [List.length_cons] at h1 h2
        simp only [apologySplitF]
        by_cases hm : apologyAt p (c :: rest) = true
        · rw [if_pos hm, if_pos hm,
            ih ((c :: rest).take 5).getLast? ((c :: rest).drop 5) g2
              (by simp only [List.length_drop, List.length_cons]; omega)
              (by simp only [List.length_drop, List.length_cons]; omega)]
        · rw [if_neg hm, if_neg hm, ih (some c) rest g2 (by omega) (by omega)]

theorem apologySplitF_no_match : ∀ (s : List Char) (fuel : Nat) (p : Option Char),
    (∀ i, apologyAt (prevAt p s i) (s.drop i) = false) →
    apologySplitF fuel p s = (s, []) := by
  intro s
  induction s with
  | nil => intro fuel p _; cases fuel <;> rfl
  | cons c rest ih =>
    intro fuel p h
    cases fuel with
    | zero => rfl
    | succ g =>
      have h0 : apologyAt p (c :: rest) = false := by simpa [prevAt] using h 0
      simp only [apologySplitF]
      rw [if_neg (by simp [h0])]
      have hrec := ih g (some c) (fun i => by
        have hi := h (i + 1)
        rwa [prevAt_cons, List.drop_succ_cons] at hi)
      rw [hrec]

theorem apologySplitF_shift : ∀ (u v : List Char) (fuel : Nat) (p : Option Char),
    (u ++ v).length < fuel →
    (∀ i, i < u.length → apologyAt (prevAt p (u ++ v) i) ((u ++ v).drop i) = false) →
    apologySplitF fuel p (u ++ v) =
      (u ++ (apologySplitF (v.length + 1) (prevEnd p u) v).1,
        (apologySplitF (v.length + 1) (prevEnd p u) v).2) := by
  intro u
  induction u with
  | nil =>
    intro v fuel p hf _
    simp only [List.nil_append, prevEnd_nil]
    rw [apologySplitF_fuel fuel p v (v.length + 1) (by simpa using hf) (Nat.lt_succ_self _)]
  | cons c u' ih =>
    intro v fuel p hf h
    cases fuel with
    | zero => simp at hf
    | succ g =>
      have h0 : apologyAt p (c :: (u' ++ v)) = false := by
        have := h 0 (by simp)
        simpa [prevAt] using this
      simp only [List.cons_append, apologySplitF]
      rw [if_neg (by simp [h0])]
      have hrec := ih v g (some c)
        (by simp only [List.cons_append, List.length_cons] at hf; simpa using Nat.lt_of_succ_lt_succ hf)
        (fun i hi => by
          have hh := h (i + 1) (by simpa using Nat.succ_lt_succ hi)
          rwa [List.cons_append, prevAt_cons, List.drop_succ_cons] at hh)
      simp only [List.append_eq]
      rw [hrec, prevEnd_cons]

theorem apologySplitF_match (v : List Char) (fuel : Nat) (p : Option Char)
    (hf : v.length < fuel) (hm : apologyAt p v = true) :
    apologySplitF fuel p v =
      ([], (v.take 5,
        (apologySplitF ((v.drop 5).length + 1) (v.take 5).getLast? (v.drop 5)).1) ::
        (apologySplitF ((v.drop 5).length + 1) (v.take 5).getLast? (v.drop 5)).2) := by
  cases fuel with
  | zero => omega
  | succ g =>
    cases v with
    | nil => exact absurd hm (by simp [apologyAt_false_of_short])
    | cons c rest =>
      simp only [apologySplitF]
      rw [if_pos hm,
        apologySplitF_fuel g ((c :: rest).take 5).getLast? ((c :: rest).drop 5)
          (((c :: rest).drop 5).length + 1)
          (by simp only [List.length_drop, List.length_cons] at hf ⊢; omega)
          (Nat.lt_succ_self _)]

theorem apologySplitF_nil_tok : ∀ (s : List Char) (fuel : Nat) (p : Option Char) (t0 : List Char),
    s.length < fuel → apologySplitF fuel p s = (t0, []) →
    ∀ i, apologyAt (prevAt p s i) (s.drop i) = false := by
  intro s
  induction s with
  | nil =>
    intro fuel p t0 _ _ i
    have : ([] : List Char).drop i = [] := by simp
    rw [this]
    exact apologyAt_false_of_short (by simp)
  | cons c rest ih =>
    intro fuel p t0 hf heq i
    cases fuel with
    | zero => omega
    | succ g =>
      by_cases hm : apologyAt p (c :: rest) = true
      · simp only [apologySplitF] at heq
        rw [if_pos hm] at heq
        exact absurd (congrArg Prod.snd heq) (by simp)
      · simp only [apologySplitF] at heq
        rw [if_neg hm] at heq
        cases i with
        | zero =>
          simpa [prevAt] using hm
        | succ j =>
          rw [prevAt_cons, List.drop_succ_cons]
          have h2 : apologySplitF g (some c) rest =
              ((apologySplitF g (some c) rest).1, []) := by
            have := congrArg Prod.snd heq
            simp only at this
            rw [Prod.ext_iff]
            exact ⟨rfl, this⟩
          exact ih g (some c) (apologySplitF g (some c) rest).1
            (by simp only [List.length_cons] at hf; omega) h2 j

theorem apologySplitF_cons_tok : ∀ (s : List Char) (fuel : Nat) (p : Option Char)
    (t0 w1 t1 : List Char) (ps : List (List Char × List Char)),
    s.length < fuel →
    apologySplitF fuel p s = (t0, (w1, t1) :: ps) →
    (∀ i, i < t0.length → apologyAt (prevAt p s i) (s.drop i) = false) ∧
    apologyAt (prevAt p s t0.length) (s.drop t0.length) = true ∧
    w1 = (s.drop t0.length).take 5 ∧
    apologySplitF ((s.drop (t0.length + 5)).length + 1) w1.getLast?
      (s.drop (t0.length + 5)) = (t1, ps) := by
  intro s
  induction s with
  | nil =>
    intro fuel p t0 w1 t1 ps hf heq
    cases fuel with
    | zero => omega
    | succ g =>
      exact absurd (congrArg Prod.snd heq) (by simp [apologySplitF])
  | cons c rest ih =>
    intro fuel p t0 w1 t1 ps hf heq
    cases fuel with
    | zero => omega
    | succ g =>
      by_cases hm : apologyAt p (c :: rest) = true
      · simp only [apologySplitF] at heq
        rw [if_pos hm] at heq
        rw [Prod.ext_iff] at heq
        obtain ⟨ht0, hcons⟩ := heq
        simp only at ht0 hcons
        rw [List.cons.injEq, Prod.mk.injEq] at hcons
        obtain ⟨⟨hw1, ht1⟩, hps⟩ := hcons
        subst ht0
        subst hw1
        refine ⟨by intro i hi; simp at hi, by simpa [prevAt] using hm, by simp, ?_⟩
        simp only [List.length_nil, Nat.zero_add]
        rw [← ht1, ← hps]
        rw [apologySplitF_fuel (((c :: rest).drop 5).length + 1) _ _ g
          (Nat.lt_succ_self _)
          (by simp only [List.length_drop, List.length_cons] at hf ⊢; omega)]
      · simp only [apologySplitF] at heq
        rw [if_neg hm] at heq
        rw [Prod.ext_iff] at heq
        obtain ⟨ht0, hps⟩ := heq
        simp only at ht0 hps
        have hrec : apologySplitF g (some c) rest =
            ((apologySplitF g (some c) rest).1, (w1, t1) :: ps) := by
          rw [Prod.ext_iff]
          exact ⟨rfl, hps⟩
        obtain ⟨ihn, ihm, ihw, ihr⟩ := ih g (some c) (apologySplitF g (some c) rest).1 w1 t1 ps
          (by simp only [List.length_cons] at hf; omega) hrec
        subst ht0
        refine ⟨?_, ?_, ?_, ?_⟩
        · intro i hi
          cases i with
          | zero => simpa [prevAt] using hm
          | succ j =>
            rw [prevAt_cons, List.drop_succ_cons]
            exact ihn j (by simpa [List.length_cons] using hi)
        · rw [List.length_cons, prevAt_cons, List.drop_succ_cons]
          exact ihm
        · rw [List.length_cons, List.drop_succ_cons]
          exact ihw
        · rw [List.length_cons]
          have harith : (apologySplitF g (some c) rest).1.length + 1 + 5 =
              ((apologySplitF g (some c) rest).1.length + 5) + 1 := by omega
          rw [harith, List.drop_succ_cons]
          exact ihr

theorem map_ne_apology_nil : (([] : List Char).map Char.toLower == apologyWord) = false := by
  decide

theorem map_ne_apology_of_last {t : List Char} {c : Char} (hl : t.getLast? = some c)
    (hw : isWordChar c = false) : (t.map Char.toLower == apologyWord) = false := by
  rw [beq_eq_false_iff_ne]
  intro hcontra
  have hy : (t.map Char.toLower).getLast? = some 'y' := by rw [hcontra]; rfl
  rw [List.getLast?_map, hl] at hy
  have hiw : isWordChar c.toLower = true := by
    have hcy : c.toLower = 'y' := by simpa using hy
    rw [hcy]; decide
  rw [isWordChar_of_toLower hiw] at hw
  cases hw

theorem map_ne_apology_of_head {t : List Char} {c : Char} (hh : t.head? = some c)
    (hw : isWordChar c = false) : (t.map Char.toLower == apologyWord) = false := by
  rw [beq_eq_false_iff_ne]
  intro hcontra
  have hy : (t.map Char.toLower).head? = some 's' := by rw [hcontra]; rfl
  rw [List.head?_map, hh] at hy
  have hiw : isWordChar c.toLower = true := by
    have hcy : c.toLower = 's' := by simpa using hy
    rw [hcy]; decide
  rw [isWordChar_of_toLower hiw] at hw
  cases hw

theorem apologyAt_ext {p q : Option Char} {u v : List Char} (hpq : p = q)
    (h6 : u.take 6 = v.take 6) : apologyAt p u = apologyAt q v := by
  subst hpq; exact apologyAt_congr h6

theorem take6_agree {a x y : List Char} {i : Nat} (h6 : i + 6 ≤ a.length) :
    ((a ++ x).drop i).take 6 = ((a ++ y).drop i).take 6 := by
  rw [List.drop_append_of_le_length (by omega), List.drop_append_of_le_length (by omega),
    List.take_append_of_le_length (by simp only [List.length_drop]; omega),
    List.take_append_of_le_length (by simp only [List.length_drop]; omega)]

theorem prevAt_agree (p : Option Char) (a x y : List Char) (i : Nat)
    (hi : i ≤ a.length) : prevAt p (a ++ x) i = prevAt p (a ++ y) i := by
  cases i with
  | zero => rfl
  | succ j =>
    simp only [prevAt]
    rw [List.getElem?_append_left (by omega), List.getElem?_append_left (by omega)]

theorem apologySplit_three (s t0 w1 t1 w2 t2 w3 t3 : List Char)
    (heq : apologySplit s = (t0, [(w1, t1), (w2, t2), (w3, t3)])) :
    t0 ++ (w1 ++ (t1 ++ (w2 ++ (t2 ++ (w3 ++ t3))))) = s ∧
    apologySplit (t0 ++ (w1 ++ (t1 ++ (t2 ++ t3)))) = (t0, [(w1, t1 ++ (t2 ++ t3))]) ∧
    (t0.map Char.toLower == apologyWord) = false ∧
    (w1.map Char.toLower == apologyWord) = true ∧
    (t1.map Char.toLower == apologyWord) = false ∧
    (w2.map Char.toLower == apologyWord) = true ∧
    (t2.map Char.toLower == apologyWord) = false ∧
    (w3.map Char.toLower == apologyWord) = true ∧
    (t3.map Char.toLower == apologyWord) = false := by
  have heqF : apologySplitF (s.length + 1) none s = (t0, [(w1, t1), (w2, t2), (w3, t3)]) := heq
  obtain ⟨N1, M1, W1, R1⟩ := apologySplitF_cons_tok s (s.length + 1) none t0 w1 t1
    [(w2, t2), (w3, t3)] (Nat.lt_succ_self _) heqF
  obtain ⟨N2, M2, W2, R2⟩ := apologySplitF_cons_tok (s.drop (t0.length + 5)) _
    w1.getLast? t1 w2 t2 [(w3, t3)] (Nat.lt_succ_self _) R1
  obtain ⟨N3, M3, W3, R3⟩ := apologySplitF_cons_tok ((s.drop (t0.length + 5)).drop (t1.length + 5)) _
    w2.getLast? t2 w3 t3 [] (Nat.lt_succ_self _) R2
  have N4 := apologySplitF_nil_tok (((s.drop (t0.length + 5)).drop (t1.length + 5)).drop (t2.length + 5)) _
    w3.getLast? t3 (Nat.lt_succ_self _) R3
  -- abbreviations for the three suffixes
  set s1 := s.drop (t0.length + 5) with hs1def
  set s2 := s1.drop (t1.length + 5) with hs2def
  set s3 := s2.drop (t2.length + 5) with hs3def
  -- decompositions (from the join lemma)
  have J0 : t0 ++ (w1 ++ (t1 ++ (w2 ++ (t2 ++ (w3 ++ t3))))) = s := by
    have h := apologySplitF_join (s.length + 1) none s
    rw [heqF] at h
    simpa [List.append_assoc] using h
  have J1 : t1 ++ (w2 ++ (t2 ++ (w3 ++ t3))) = s1 := by
    have h := apologySplitF_join (s1.length + 1) w1.getLast? s1
    rw [R1] at h
    simpa [List.append_assoc] using h
  have J2 : t2 ++ (w3 ++ t3) = s2 := by
    have h := apologySplitF_join (s2.length + 1) w2.getLast? s2
    rw [R2] at h
    simpa [List.append_assoc] using h
  have J3 : t3 = s3 := by
    have h := apologySplitF_join (s3.length + 1) w3.getLast? s3
    rw [R3] at h
    simpa using h
  -- token word facts
  have hw1map : w1.map Char.toLower = apologyWord := by rw [W1]; exact apologyAt_take5 M1
  have hw2map : w2.map Char.toLower = apologyWord := by rw [W2]; exact apologyAt_take5 M2
  have hw3map : w3.map Char.toLower = apologyWord := by rw [W3]; exact apologyAt_take5 M3
  have hw1len : w1.length = 5 := by
    have h := congrArg List.length hw1map
    simpa [apologyWord_length] using h
  have hw2len : w2.length = 5 := by
    have h := congrArg List.length hw2map
    simpa [apologyWord_length] using h
  have hw1ne : w1 ≠ [] := by intro h; rw [h] at hw1len; simp at hw1len
  have hw2ne : w2 ≠ [] := by intro h; rw [h] at hw2len; simp at hw2len
  have hw1words : ∀ c ∈ w1, isWordChar c = true := by
    intro c hc
    exact apologyAt_word_chars M1 c (W1 ▸ hc)
  have hw2words : ∀ c ∈ w2, isWordChar c = true := by
    intro c hc
    exact apologyAt_word_chars M2 c (W2 ▸ hc)
  have hw1wordy : wordy w1.getLast? = true := by
    rw [List.getLast?_eq_getLast _ hw1ne]
    exact hw1words _ (List.getLast_mem hw1ne)
  have hw2wordy : wordy w2.getLast? = true := by
    rw [List.getLast?_eq_getLast _ hw2ne]
    exact hw2words _ (List.getLast_mem hw2ne)
  -- the middle text parts are non-empty
  have ht1ne : t1 ≠ [] := by
    intro hnil
    have hp := apologyAt_prev M2
    rw [hnil] at hp
    simp only [List.length_nil] at hp
    rw [show prevAt w1.getLast? s1 0 = w1.getLast? from rfl, hw1wordy] at hp
    cases hp
  have ht2ne : t2 ≠ [] := by
    intro hnil
    have hp := apologyAt_prev M3
    rw [hnil] at hp
    simp only [List.length_nil] at hp
    rw [show prevAt w2.getLast? s2 0 = w2.getLast? from rfl, hw2wordy] at hp
    cases hp
  -- boundary characters of the text parts
  have ht1last : ∃ c, t1.getLast? = some c ∧ isWordChar c = false := by
    have hp := apologyAt_prev M2
    cases ht1l : t1.length with
    | zero => exact absurd (List.length_eq_zero.mp ht1l) ht1ne
    | succ m =>
      rw [ht1l] at hp
      simp only [prevAt] at hp
      have hg : s1[m]? = t1[m]? := by
        rw [← J1]
        exact List.getElem?_append_left (by omega)
      obtain ⟨c, hc⟩ : ∃ c, t1[m]? = some c :=
        ⟨t1.get ⟨m, by omega⟩, List.getElem?_eq_getElem (by omega)⟩
      refine ⟨c, ?_, ?_⟩
      · rw [List.getLast?_eq_getElem?, ht1l]
        simpa using hc
      · rw [hg, hc] at hp
        simpa [wordy] using hp
  have ht2last : ∃ c, t2.getLast? = some c ∧ isWordChar c = false := by
    have hp := apologyAt_prev M3
    cases ht2l : t2.length with
    | zero => exact absurd (List.length_eq_zero.mp ht2l) ht2ne
    | succ m =>
      rw [ht2l] at hp
      simp only [prevAt] at hp
      have hg : s2[m]? = t2[m]? := by
        rw [← J2]
        exact List.getElem?_append_left (by omega)
      obtain ⟨c, hc⟩ : ∃ c, t2[m]? = some c :=
        ⟨t2.get ⟨m, by omega⟩, List.getElem?_eq_getElem (by omega)⟩
      refine ⟨c, ?_, ?_⟩
      · rw [List.getLast?_eq_getElem?, ht2l]
        simpa using hc
      · rw [hg, hc] at hp
        simpa [wordy] using hp
  have ht1head : ∃ c, t1.head? = some c ∧ isWordChar c = false := by
    cases hh : t1.head? with
    | none => exact absurd (List.head?_eq_none_iff.mp hh) ht1ne
    | some c =>
      refine ⟨c, rfl, ?_⟩
      apply apologyAt_after M1
      rw [show (s.drop t0.length).drop 5 = s1 from by rw [hs1def, List.drop_drop]]
      rw [← J1]
      simp [hh]
  have ht2head : ∃ c, t2.head? = some c ∧ isWordChar c = false := by
    cases hh : t2.head? with
    | none => exact absurd (List.head?_eq_none_iff.mp hh) ht2ne
    | some c =>
      refine ⟨c, rfl, ?_⟩
      apply apologyAt_after M2
      rw [show (s1.drop t1.length).drop 5 = s2 from by rw [hs2def, List.drop_drop]]
      rw [← J2]
      simp [hh]
  have ht3head : t3 = [] ∨ ∃ c, t3.head? = some c ∧ isWordChar c = false := by
    cases hh : t3.head? with
    | none => exact Or.inl (List.head?_eq_none_iff.mp hh)
    | some c =>
      refine Or.inr ⟨c, rfl, ?_⟩
      apply apologyAt_after M3
      rw [show (s2.drop t2.length).drop 5 = s3 from by rw [hs3def, List.drop_drop]]
      rw [← J3]
      exact hh
  have ht0fact : t0 = [] ∨ ∃ c, t0.getLast? = some c ∧ isWordChar c = false := by
    have hp := apologyAt_prev M1
    cases ht0l : t0.length with
    | zero => exact Or.inl (List.length_eq_zero.mp ht0l)
    | succ m =>
      rw [ht0l] at hp
      simp only [prevAt] at hp
      have hg : s[m]? = t0[m]? := by
        rw [← J0]
        exact List.getElem?_append_left (by omega)
      obtain ⟨c, hc⟩ : ∃ c, t0[m]? = some c :=
        ⟨t0.get ⟨m, by omega⟩, List.getElem?_eq_getElem (by omega)⟩
      refine Or.inr ⟨c, ?_, ?_⟩
      · rw [List.getLast?_eq_getElem?, ht0l]
        simpa using hc
      · rw [hg, hc] at hp
        simpa [wordy] using hp
  -- the capped tail contains no further match
  have NR : ∀ i, apologyAt (prevAt w1.getLast? (t1 ++ (t2 ++ t3)) i)
      ((t1 ++ (t2 ++ t3)).drop i) = false := by
    intro i
    rcases Nat.lt_or_ge i t1.length with hi | hi
    · rcases le_or_lt (i + 6) t1.length with h6 | h6
      · -- window inside t1: transfer from the original scan of s1
        have hN := N2 i hi
        rw [← J1] at hN
        rw [← apologyAt_ext
          (prevAt_agree w1.getLast? t1 (w2 ++ (t2 ++ (w3 ++ t3))) (t2 ++ t3) i
            (by omega))
          (take6_agree (x := w2 ++ (t2 ++ (w3 ++ t3))) (y := t2 ++ t3) h6)]
        exact hN
      · -- window touches the non-word final character of t1
        obtain ⟨c, hc, hw⟩ := ht1last
        apply apologyAt_false_of_nonword_at (j := t1.length - 1 - i) (c := c) (by omega) ?_ hw
        rw [List.getElem?_drop, show i + (t1.length - 1 - i) = t1.length - 1 from by omega,
          List.getElem?_append_left (by omega), ← List.getLast?_eq_getElem?]
        exact hc
    · rcases Nat.lt_or_ge i (t1.length + t2.length) with hi2 | hi2
      · by_cases hj : i = t1.length
        · -- at the start of t2: its head is a non-word character
          obtain ⟨c, hc, hw⟩ := ht2head
          apply apologyAt_false_of_nonword_at (j := 0) (c := c) (by omega) ?_ hw
          rw [List.getElem?_drop, Nat.add_zero, hj,
            List.getElem?_append_right (Nat.le_refl _), Nat.sub_self,
            List.getElem?_append_left (by omega), ← List.head?_eq_getElem?]
          exact hc
        · rcases le_or_lt (i - t1.length + 6) t2.length with h6 | h6
          · -- window inside t2: transfer from the original scan of s2
            have hN := N3 (i - t1.length) (by omega)
            rw [← J2] at hN
            have hdropR : (t1 ++ (t2 ++ t3)).drop i = t2.drop (i - t1.length) ++ t3 := by
              conv_lhs => rw [show i = t1.length + (i - t1.length) from by omega]
              rw [List.drop_append, List.drop_append_of_le_length (by omega)]
            have hdropS : (t2 ++ (w3 ++ t3)).drop (i - t1.length) =
                t2.drop (i - t1.length) ++ (w3 ++ t3) :=
              List.drop_append_of_le_length (by omega)
            have hag : ((t2 ++ (w3 ++ t3)).drop (i - t1.length)).take 6 =
                ((t1 ++ (t2 ++ t3)).drop i).take 6 := by
              rw [hdropR, hdropS,
                List.take_append_of_le_length (by simp only [List.length_drop]; omega),
                List.take_append_of_le_length (by simp only [List.length_drop]; omega)]
            have hpe : prevAt w2.getLast? (t2 ++ (w3 ++ t3)) (i - t1.length) =
                prevAt w1.getLast? (t1 ++ (t2 ++ t3)) i := by
              have hj1 : 1 ≤ i - t1.length := by omega
              cases hmm : i - t1.length with
              | zero => omega
              | succ m =>
                have him : i = t1.length + m + 1 := by omega
                subst him
                simp only [prevAt]
                rw [List.getElem?_append_left (by omega),
                  List.getElem?_append_right (by omega : t1.length ≤ t1.length + m),
                  Nat.add_sub_cancel_left,
                  List.getElem?_append_left (by omega)]
            rw [← apologyAt_ext hpe hag]
            exact hN
          · -- window touches the non-word final character of t2
            obtain ⟨c, hc, hw⟩ := ht2last
            apply apologyAt_false_of_nonword_at
              (j := t1.length + t2.length - 1 - i) (c := c) (by omega) ?_ hw
            rw [List.getElem?_drop,
              show i + (t1.length + t2.length - 1 - i) = t1.length + (t2.length - 1) from by omega,
              List.getElem?_append_right (by omega : t1.length ≤ t1.length + (t2.length - 1)),
              Nat.add_sub_cancel_left,
              List.getElem?_append_left (by omega), ← List.getLast?_eq_getElem?]
            exact hc
      · -- inside t3 (or past the end)
        have hdropR : (t1 ++ (t2 ++ t3)).drop i = t3.drop (i - t1.length - t2.length) := by
          conv_lhs => rw [show i = t1.length + (t2.length + (i - t1.length - t2.length)) from by omega]
          rw [List.drop_append, List.drop_append]
        by_cases hk : i = t1.length + t2.length
        · rcases ht3head with hnil | ⟨c, hc, hw⟩
          · rw [hdropR, hnil]
            exact apologyAt_false_of_short (by simp)
          · apply apologyAt_false_of_nonword_at (j := 0) (c := c) (by omega) ?_ hw
            rw [hdropR, show i - t1.length - t2.length = 0 from by omega, List.drop_zero,
              ← List.head?_eq_getElem?]
            exact hc
        · -- strictly inside t3: transfer from the original scan of s3
          have hk1 : t1.length + t2.length < i := by omega
          have hN := N4 (i - t1.length - t2.length)
          rw [← J3] at hN
          have hpe : prevAt w3.getLast? t3 (i - t1.length - t2.length) =
              prevAt w1.getLast? (t1 ++ (t2 ++ t3)) i := by
            cases hmm : i - t1.length - t2.length with
            | zero => omega
            | succ m =>
              have him : i = t1.length + t2.length + m + 1 := by omega
              subst him
              simp only [prevAt]
              rw [show t1.length + t2.length + m = t1.length + (t2.length + m) from by omega,
                List.getElem?_append_right (by omega : t1.length ≤ t1.length + (t2.length + m)),
                Nat.add_sub_cancel_left,
                List.getElem?_append_right (by omega : t2.length ≤ t2.length + m),
                Nat.add_sub_cancel_left]
          rw [← apologyAt_ext hpe (by rw [hdropR])]
          exact hN
  -- no match while scanning the leading text part
  have e1 : t0 ++ (w1 ++ (t1 ++ (w2 ++ (t2 ++ (w3 ++ t3))))) =
      (t0 ++ w1 ++ t1) ++ (w2 ++ (t2 ++ (w3 ++ t3))) := by
    simp [List.append_assoc]
  have e2 : t0 ++ (w1 ++ (t1 ++ (t2 ++ t3))) = (t0 ++ w1 ++ t1) ++ (t2 ++ t3) := by
    simp [List.append_assoc]
  have hpre : ∀ i, i < t0.length →
      apologyAt (prevAt none (t0 ++ (w1 ++ (t1 ++ (t2 ++ t3)))) i)
        ((t0 ++ (w1 ++ (t1 ++ (t2 ++ t3)))).drop i) = false := by
    intro i hi
    have hN := N1 i hi
    rw [← J0, e1] at hN
    rw [e2]
    rw [← apologyAt_ext
      (prevAt_agree none (t0 ++ w1 ++ t1) (w2 ++ (t2 ++ (w3 ++ t3))) (t2 ++ t3) i
        (by simp only [List.length_append]; omega))
      (take6_agree (x := w2 ++ (t2 ++ (w3 ++ t3))) (y := t2 ++ t3)
        (by simp only [List.length_append]
            have ht1l : 1 ≤ t1.length := by
              cases t1 with
              | nil => exact absurd rfl ht1ne
              | cons a l => simp
            omega))]
    exact hN
  -- the match fires right after the leading text part
  have hprevEnd : prevEnd none t0 = prevAt none s t0.length := by
    unfold prevEnd
    cases ht0l : t0.length with
    | zero => rfl
    | succ m =>
      simp only [prevAt]
      rw [← J0, List.getElem?_append_left (by omega)]
  have htake5 : (w1 ++ (t1 ++ (t2 ++ t3))).take 5 = w1 := List.take_left' hw1len
  have hdrop5 : (w1 ++ (t1 ++ (t2 ++ t3))).drop 5 = t1 ++ (t2 ++ t3) := List.drop_left' hw1len
  have hmatch' : apologyAt (prevEnd none t0) (w1 ++ (t1 ++ (t2 ++ t3))) = true := by
    obtain ⟨c, hc, hw⟩ := ht1head
    have hafter : ((w1 ++ (t1 ++ (t2 ++ t3))).drop 5).head? = some c := by
      rw [hdrop5]
      cases t1 with
      | nil => exact absurd rfl ht1ne
      | cons a l =>
        simp only [List.cons_append, List.head?]
        simpa using hc
    simp only [apologyAt, Bool.and_eq_true]
    refine ⟨⟨?_, ?_⟩, ?_⟩
    · rw [hprevEnd]
      have hp := apologyAt_prev M1
      simp [hp]
    · rw [htake5, hw1map]
      exact beq_self_eq_true _
    · rw [hafter]
      simp [hw]
  -- assemble the split of the capped string
  have key : apologySplit (t0 ++ (w1 ++ (t1 ++ (t2 ++ t3)))) =
      (t0, [(w1, t1 ++ (t2 ++ t3))]) := by
    unfold apologySplit
    rw [apologySplitF_shift t0 (w1 ++ (t1 ++ (t2 ++ t3))) _ none (Nat.lt_succ_self _) hpre]
    rw [apologySplitF_match (w1 ++ (t1 ++ (t2 ++ t3))) _ (prevEnd none t0)
      (Nat.lt_succ_self _) hmatch']
    rw [htake5, hdrop5]
    rw [apologySplitF_no_match (t1 ++ (t2 ++ t3)) _ w1.getLast? NR]
    simp
  -- token classification of the parts
  have htokT0 : (t0.map Char.toLower == apologyWord) = false := by
    rcases ht0fact with hnil | ⟨c, hc, hw⟩
    · rw [hnil]; exact map_ne_apology_nil
    · exact map_ne_apology_of_last hc hw
  have htokT1 : (t1.map Char.toLower == apologyWord) = false := by
    obtain ⟨c, hc, hw⟩ := ht1head
    exact map_ne_apology_of_head hc hw
  have htokT2 : (t2.map Char.toLower == apologyWord) = false := by
    obtain ⟨c, hc, hw⟩ := ht2head
    exact map_ne_apology_of_head hc hw
  have htokT3 : (t3.map Char.toLower == apologyWord) = false := by
    rcases ht3head with hnil | ⟨c, hc, hw⟩
    · rw [hnil]; exact map_ne_apology_nil
    · exact map_ne_apology_of_head hc hw
  exact ⟨J0, key, htokT0, by rw [hw1map]; exact beq_self_eq_true _, htokT1,
    by rw [hw2map]; exact beq_self_eq_true _, htokT2,
    by rw [hw3map]; exact beq_self_eq_true _, htokT3⟩

/-- C9: when the apology token occurs 3 times, the capped output removes
exactly the word literal of the later occurrences (surrounding text
preserved), contains exactly 1 occurrence, and the text before the kept
first occurrence — hence its position — is unchanged. -/
theorem C9_apology_cap (s : List Char) (h3 : apologyCount s = 3) :
    cap_apology s = removeLaterApologies s ∧
    apologyCount (cap_apology s) = 1 ∧
    (apologySplit (cap_apology s)).1 = (apologySplit s).1 := by
  rcases hsp : apologySplit s with ⟨t0, ps⟩
  have hc3 : ps.length = 3 := by
    have h := h3
    unfold apologyCount at h
    rw [hsp] at h
    exact h
  obtain ⟨q1, ps1, rfl⟩ : ∃ a l, ps = a :: l := by
    cases ps with
    | nil => simp at hc3
    | cons a l => exact ⟨a, l, rfl⟩
  obtain ⟨q2, ps2, rfl⟩ : ∃ a l, ps1 = a :: l := by
    cases ps1 with
    | nil => simp at hc3
    | cons a l => exact ⟨a, l, rfl⟩
  obtain ⟨q3, ps3, rfl⟩ : ∃ a l, ps2 = a :: l := by
    cases ps2 with
    | nil => simp at hc3
    | cons a l => exact ⟨a, l, rfl⟩
  obtain rfl : ps3 = [] := by
    cases ps3 with
    | nil => rfl
    | cons a l => simp at hc3
  obtain ⟨w1, t1⟩ := q1
  obtain ⟨w2, t2⟩ := q2
  obtain ⟨w3, t3⟩ := q3
  obtain ⟨J0, key, k0, k1, k2, k3, k4, k5, k6⟩ :=
    apologySplit_three s t0 w1 t1 w2 t2 w3 t3 hsp
  have hparts : apologyParts s = [t0, w1, t1, w2, t2, w3, t3] := by
    unfold apologyParts
    rw [hsp]
    rfl
  have hcap : cap_apology s = t0 ++ (w1 ++ (t1 ++ (t2 ++ t3))) := by
    unfold cap_apology
    rw [if_pos (by rw [h3]; omega), hparts]
    simp only [capLoop, k0, k1, k2, k3, k4, k5, k6]
    simp
  refine ⟨?_, ?_, ?_⟩
  · rw [hcap]
    unfold removeLaterApologies
    rw [hsp]
    simp [List.append_assoc]
  · unfold apologyCount
    rw [hcap, key]
    rfl
  · rw [hcap, key]

/-- C9 witness: the cap applied to a string with three occurrences of the
token. -/
theorem C9_witness :
    cap_apology ("sorry a sorry b sorry".data) =
      removeLaterApologies ("sorry a sorry b sorry".data) ∧
    apologyCount (cap_apology ("sorry a sorry b sorry".data)) = 1 ∧
    (apologySplit (cap_apology ("sorry a sorry b sorry".data))).1 =
      (apologySplit ("sorry a sorry b sorry".data)).1 :=
  C9_apology_cap ("sorry a sorry b sorry".data) (by decide)

/-- C10 witness: the entry stored for an exchange with absent texts, in an
initially empty store. -/
theorem C10_witness :
    (⟨"t", "", "", "neutral", []⟩ : MemoryEntry) ∈ ([] : List MemoryEntry) ∨
    ((⟨"t", "", "", "neutral", []⟩ : MemoryEntry).user = sanitize_memory_text none ∧
     (⟨"t", "", "", "neutral", []⟩ : MemoryEntry).agent = sanitize_memory_text none) :=
  (C10_sanitize_falsy "t" "n" none none [] emptySummary).2.2 ⟨"t", "", "", "neutral", []⟩
    (by decide)

/-- C3: every interleaving of n threads each running the locked
`update_memory` body to completion, starting from the empty store,
persists conversation_count = n. -/
theorem C3_no_lost_updates (n : Nat) (ts lu : Fin n → String) (u a : Fin n → Option String)
    (sy : Sys n) (h : Reaches ts lu u a (Sys.init n) sy)
    (hdone : ∀ i, sy.th i = .done) :
    sy.store.summaryDoc.conversation_count = (n : Int) := by
  have hinv := reaches_inv h (init_inv n)
  rw [hinv.2.1]
  have hall : writtenCount sy.th = n := by
    unfold writtenCount
    have huniv : (Finset.univ.filter (fun i => ((sy.th i)).wrote = true)) = Finset.univ := by
      ext j
      simp [hdone j, TState.wrote]
    rw [huniv, Finset.card_univ, Fintype.card_fin]
  rw [hall]

/-- C3 witness: a single thread run to completion. -/
theorem C3_witness : c3final.store.summaryDoc.conversation_count = (1 : Int) := by
  refine C3_no_lost_updates 1 c3ts c3lu c3u c3a c3final ?_ (by decide)
  have e1 : SysStep c3ts c3lu c3u c3a (Sys.init 1) ⟨⟨[], emptySummary⟩, some c3i, c3th1⟩ :=
    ⟨c3i, Step.acquire _ _ rfl⟩
  have e2 : SysStep c3ts c3lu c3u c3a ⟨⟨[], emptySummary⟩, some c3i, c3th1⟩
      ⟨⟨[], emptySummary⟩, some c3i, c3th2⟩ :=
    ⟨c3i, Step.readCtx _ _ _ rfl⟩
  have e3 : SysStep c3ts c3lu c3u c3a ⟨⟨[], emptySummary⟩, some c3i, c3th2⟩
      ⟨⟨c3ctx, emptySummary⟩, some c3i, c3th3⟩ :=
    ⟨c3i, Step.writeCtx _ _ _ _ rfl⟩
  have e4 : SysStep c3ts c3lu c3u c3a ⟨⟨c3ctx, emptySummary⟩, some c3i, c3th3⟩
      ⟨⟨c3ctx, emptySummary⟩, some c3i, c3th4⟩ :=
    ⟨c3i, Step.readSum _ _ _ _ rfl⟩
  have e5 : SysStep c3ts c3lu c3u c3a ⟨⟨c3ctx, emptySummary⟩, some c3i, c3th4⟩
      ⟨⟨c3ctx, c3m⟩, some c3i, c3th5⟩ :=
    ⟨c3i, Step.writeSum _ _ _ _ _ rfl⟩
  have e6 : SysStep c3ts c3lu c3u c3a ⟨⟨c3ctx, c3m⟩, some c3i, c3th5⟩ c3final :=
    ⟨c3i, Step.release _ _ rfl⟩
  exact .head e1 (.head e2 (.head e3 (.head e4 (.head e5 (.head e6 .refl)))))

end Aspire
